import Mathlib

/-!
# Verification of the xsum engine against its specification

Shallow embedding of the xsum filesystem-checksum engine:
the attribute-mask component (`mask.go`), the canonical DER encoder
(`encoding/encoding.go`), the metadata record hasher (`file.go`,
`hashFileAttr`), the Merkle walker (`sum.go`, `walkFile`/`walkDir`),
and the ordered result queue (`queue.go`).

Machine integers are modelled as `Nat` with explicit `% 2^w` where Go
truncates; Go strings are modelled as `List Char`; fallible Go functions
return a result type (`GoRes`, `Res`); the one function that can panic
returns a dedicated result type with a `panics` constructor.
-/

namespace Xsum

/-- Result of a fallible Go function: a value or an error message. -/
inductive GoRes (α : Type) where
  | ok (a : α)
  | err (msg : List Char)
  deriving DecidableEq, Repr

/-- Byte sequences (each element < 256 by construction of the producers). -/
abbrev Bytes := List Nat

/-- Go string, modelled as its characters. -/
abbrev GoStr := List Char

/-! ## Attribute mask component (mask.go)

`Attr` is a `uint16` bitset, `Mode` a `uint16` holding a 12-bit value.
We model both as `Nat`; every parser produces values `< 2^16`. -/

def AttrUID : Nat := 1 <<< 0
def AttrGID : Nat := 1 <<< 1
def AttrAtime : Nat := 1 <<< 2
def AttrMtime : Nat := 1 <<< 3
def AttrCtime : Nat := 1 <<< 4
def AttrBtime : Nat := 1 <<< 5
def AttrSpecial : Nat := 1 <<< 6
def AttrX : Nat := 1 <<< 7
def AttrInclusive : Nat := 1 <<< 8
def AttrNoName : Nat := 1 <<< 9
def AttrNoData : Nat := 1 <<< 10
def AttrFollow : Nat := 1 <<< 11

/-- The `attrRep` table from mask.go, in source order. -/
def attrRep : List (Nat × Char) :=
  [(AttrUID, 'u'), (AttrGID, 'g'), (AttrSpecial, 's'), (AttrMtime, 't'),
   (AttrCtime, 'c'), (AttrX, 'x'), (AttrInclusive, 'i'), (AttrNoName, 'n'),
   (AttrNoData, 'e'), (AttrFollow, 'l')]

/-- `NewAttrString`: fold option letters into an attribute bitset;
an unknown letter is an error. -/
def NewAttrString : GoStr → GoRes Nat
  | [] => .ok 0
  | c :: rest =>
    match (attrRep.find? fun p => p.2 = c) with
    | some p =>
      match NewAttrString rest with
      | .ok a => .ok (p.1 ||| a)
      | .err e => .err e
    | none => .err ("invalid attribute `".data ++ [c] ++ "'".data)

/-- Value of one hex digit, `none` when not a hex digit
(mirrors what `hex.DecodeString` accepts: 0-9, a-f, A-F). -/
def hexDigit (c : Char) : Option Nat :=
  if '0' ≤ c ∧ c ≤ '9' then some (c.toNat - '0'.toNat)
  else if 'a' ≤ c ∧ c ≤ 'f' then some (c.toNat - 'a'.toNat + 10)
  else if 'A' ≤ c ∧ c ≤ 'F' then some (c.toNat - 'A'.toNat + 10)
  else none

/-- `hex.DecodeString` on an even-length string: pairs of hex digits to bytes. -/
def hexDecode : GoStr → Option Bytes
  | [] => some []
  | [_] => none
  | c1 :: c2 :: rest =>
    match hexDigit c1, hexDigit c2, hexDecode rest with
    | some h, some l, some bs => some ((h * 16 + l) :: bs)
    | _, _, _ => none

/-- `NewAttrHex`: decode hex, truncate/pad to 2 bytes, read big-endian. -/
def NewAttrHex (s : GoStr) : GoRes Nat :=
  if s.length % 2 ≠ 0 then .err "invalid hex attribute length".data
  else
    match hexDecode s with
    | none => .err ("invalid hex attribute `".data ++ s ++ "'".data)
    | some b =>
      let b2 : Bytes :=
        if b.length > 2 then b.take 2
        else if b.length = 1 then [0] ++ b
        else if b.length = 0 then [0, 0]
        else b
      .ok (b2.headI * 256 + (b2.drop 1).headI)

/-- One octal digit value, `none` otherwise. -/
def octDigit (c : Char) : Option Nat :=
  if '0' ≤ c ∧ c ≤ '7' then some (c.toNat - '0'.toNat) else none

/-- Accumulating octal parse; `none` on a non-octal character. -/
def parseOctalAux : GoStr → Nat → Option Nat
  | [], acc => some acc
  | c :: rest, acc =>
    match octDigit c with
    | some d => parseOctalAux rest (acc * 8 + d)
    | none => none

/-- `NewModeString`: empty string is mode 0; otherwise
`strconv.ParseUint(s, 8, 12)` (octal digits only, value below 2^12). -/
def NewModeString (s : GoStr) : GoRes Nat :=
  if s = [] then .ok 0
  else
    match parseOctalAux s 0 with
    | some v =>
      if v < 4096 then .ok v
      else .err ("invalid mode `".data ++ s ++ "'".data)
    | none => .err ("invalid mode `".data ++ s ++ "'".data)

/-- `NewModeHex`: exactly 3 hex digits, decoded via `"0" + s` big-endian. -/
def NewModeHex (s : GoStr) : GoRes Nat :=
  if s.length ≠ 3 then .err "invalid hex mode length".data
  else
    match hexDecode ('0' :: s) with
    | some b =>
      if b.length = 2 then .ok (b.headI * 256 + (b.drop 1).headI)
      else .err ("invalid hex mode `".data ++ s ++ "'".data)
    | none => .err ("invalid hex mode `".data ++ s ++ "'".data)

/-- `unicode.IsSpace` restricted to the characters Go treats as space
in the Latin-1 range (sufficient: mask strings are ASCII). -/
def goIsSpace (c : Char) : Bool :=
  c = ' ' ∨ c = '\t' ∨ c = '\n' ∨ c = (Char.ofNat 11) ∨ c = (Char.ofNat 12) ∨
  c = '\r' ∨ c = (Char.ofNat 0x85) ∨ c = (Char.ofNat 0xA0)

/-- `strings.TrimSpace`. -/
def goTrimSpace (s : GoStr) : GoStr :=
  ((s.dropWhile goIsSpace).reverse.dropWhile goIsSpace).reverse

/-- `strings.SplitN(s, "+", 2)`: the part before the first `+`,
and (when a `+` occurs) the remainder after it. -/
def splitPlus : GoStr → GoStr × Option GoStr
  | [] => ([], none)
  | c :: rest =>
    if c = '+' then ([], some rest)
    else
      let r := splitPlus rest
      (c :: r.1, r.2)

/-- A mask is a 12-bit mode plus an attribute bitset (both uint16 in Go). -/
structure Mask where
  mode : Nat
  attr : Nat
  deriving DecidableEq, Repr

/-- `NewMaskString`: split on the first `+`, trim and octal-parse the mode,
parse the option letters. -/
def NewMaskString (s : GoStr) : GoRes Mask :=
  let parts := splitPlus s
  let mode := goTrimSpace parts.1
  let attrs := parts.2.getD []
  match NewModeString mode with
  | .err e => .err e
  | .ok m =>
    match NewAttrString attrs with
    | .err e => .err e
    | .ok attr => .ok ⟨m, attr⟩

/-- Result of a Go function that can panic. -/
inductive PResult (α : Type) where
  | panics
  | errv (msg : GoStr)
  | ok (a : α)
  deriving DecidableEq, Repr

/-- `NewMaskHex`: after checking only `len(s) < 3` and the leading `a`,
the code slices `s[1:4]`, which panics when `len(s) == 3`. -/
def NewMaskHex (s : GoStr) : PResult Mask :=
  if s.length < 3 then .errv "mask too short".data
  else if ¬(s.headI = 'a' ∨ s.headI = 'A') then .errv "invalid mask code".data
  else if s.length < 4 then .panics
  else
    match NewModeHex ((s.drop 1).take 3) with
    | .err e => .errv e
    | .ok mode =>
      match NewAttrHex (s.drop 4) with
      | .err e => .errv e
      | .ok attr => .ok ⟨mode, attr⟩

/-- `Attr.String()`: emit the letter of each set flag, in `attrRep` order. -/
def attrString (a : Nat) : GoStr :=
  (attrRep.filter fun p => a &&& p.1 ≠ 0).map (·.2)

/-- Digits of `n` in base `b`, most significant first (fuel-indexed so that
it reduces definitionally; `fuel = n` always suffices since `n / b < n`). -/
def baseDigitsAux (b : Nat) : Nat → Nat → List Nat
  | _, 0 => []
  | n, fuel + 1 =>
    if n = 0 ∨ b ≤ 1 then [] else baseDigitsAux b (n / b) fuel ++ [n % b]

/-- Digits of `n` in base `b` (most significant first), empty for 0. -/
def baseDigits (b : Nat) (n : Nat) : List Nat :=
  baseDigitsAux b n n

/-- Lowercase character for a digit value below 16. -/
def digitChar (d : Nat) : Char :=
  if d < 10 then Char.ofNat ('0'.toNat + d) else Char.ofNat ('a'.toNat + d - 10)

/-- `fmt.Sprintf` of `n` in base `b`, zero-padded on the left to `w` digits. -/
def padBase (b w n : Nat) : GoStr :=
  let ds := (baseDigits b n).map digitChar
  List.replicate (w - ds.length) '0' ++ ds

/-- `Mode.String()`: `fmt.Sprintf("%04o", m)[:4]`. -/
def modeString (m : Nat) : GoStr :=
  (padBase 8 4 m).take 4

/-- `Mode.Hex()`: 2 bytes big-endian, hex-encoded, first character dropped. -/
def modeHex (m : Nat) : GoStr :=
  (padBase 16 4 (m % 65536)).drop 1

/-- `Attr.Hex()`: 2 bytes big-endian, hex-encoded. -/
def attrHex (a : Nat) : GoStr :=
  padBase 16 4 (a % 65536)

/-- `Mask.String()`: mode, then `+letters` unless the attribute set is empty. -/
def Mask.string (m : Mask) : GoStr :=
  let attrs := attrString m.attr
  if attrs = [] then modeString m.mode
  else modeString m.mode ++ '+' :: attrs

/-- `Mask.Hex()`: the version tag `a`, 3 hex digits of mode, 4 of attrs. -/
def Mask.hex (m : Mask) : GoStr :=
  'a' :: modeHex m.mode ++ attrHex m.attr

/-- Union of the bits representable by option letters
(all attributes except the reserved `atime`/`btime` bits). -/
def attrRepMask : Nat := 0xfdb

/-! ### Lemmas about digit formatting and parsing -/

/-- The value denoted by a digit list in base `b`. -/
def digBaseVal (b : Nat) (ds : List Nat) : Nat :=
  ds.foldl (fun a d => a * b + d) 0

theorem baseDigitsAux_fuel (b : Nat) :
    ∀ f₁ f₂ n, n ≤ f₁ → n ≤ f₂ → baseDigitsAux b n f₁ = baseDigitsAux b n f₂ := by
  intro f₁
  induction f₁ with
  | zero =>
    intro f₂ n h₁ _
    have : n = 0 := by omega
    subst this
    cases f₂ with
    | zero => rfl
    | succ g => simp [baseDigitsAux]
  | succ f ih =>
    intro f₂ n h₁ h₂
    by_cases hn : n = 0
    · subst hn
      cases f₂ with
      | zero => simp [baseDigitsAux]
      | succ g => simp [baseDigitsAux]
    · have hf₂ : ∃ g, f₂ = g + 1 := ⟨f₂ - 1, by omega⟩
      obtain ⟨g, rfl⟩ := hf₂
      show (if n = 0 ∨ b ≤ 1 then [] else baseDigitsAux b (n / b) f ++ [n % b]) =
        (if n = 0 ∨ b ≤ 1 then [] else baseDigitsAux b (n / b) g ++ [n % b])
      by_cases hb : b ≤ 1
      · simp [hb]
      · have hcond : ¬(n = 0 ∨ b ≤ 1) := by omega
        rw [if_neg hcond, if_neg hcond]
        have hd : n / b < n := Nat.div_lt_self (by omega) (by omega)
        rw [ih g (n / b) (by omega) (by omega)]

theorem baseDigits_unfold (b n : Nat) :
    baseDigits b n = if n = 0 ∨ b ≤ 1 then [] else baseDigits b (n / b) ++ [n % b] := by
  by_cases h : n = 0 ∨ b ≤ 1
  · rw [if_pos h]
    rcases h with h | h
    · subst h; rfl
    · unfold baseDigits
      cases n with
      | zero => rfl
      | succ k =>
        show (if k + 1 = 0 ∨ b ≤ 1 then [] else _) = []
        rw [if_pos (Or.inr h)]
  · rw [if_neg h]
    push_neg at h
    unfold baseDigits
    cases hn : n with
    | zero => exact absurd hn h.1
    | succ k =>
      show (if k + 1 = 0 ∨ b ≤ 1 then [] else baseDigitsAux b ((k + 1) / b) k ++ [(k + 1) % b]) = _
      rw [if_neg (by omega)]
      have hd : (k + 1) / b < k + 1 := Nat.div_lt_self (by omega) (by omega)
      rw [baseDigitsAux_fuel b k ((k + 1) / b) ((k + 1) / b) (by omega) le_rfl]

theorem baseDigits_val (b : Nat) (hb : 2 ≤ b) :
    ∀ n, digBaseVal b (baseDigits b n) = n := by
  intro n
  induction n using Nat.strong_induction_on with
  | _ n ih =>
    rw [baseDigits_unfold]
    by_cases h : n = 0
    · simp [h, digBaseVal]
    · rw [if_neg (by omega)]
      have hd : n / b < n := Nat.div_lt_self (by omega) (by omega)
      unfold digBaseVal
      rw [List.foldl_append]
      have hv := ih (n / b) hd
      unfold digBaseVal at hv
      rw [hv, List.foldl_cons, List.foldl_nil, Nat.mul_comm]
      exact Nat.div_add_mod n b

theorem baseDigits_lt (b : Nat) :
    ∀ n d, d ∈ baseDigits b n → d < b := by
  intro n
  induction n using Nat.strong_induction_on with
  | _ n ih =>
    intro d hd
    rw [baseDigits_unfold] at hd
    by_cases h : n = 0 ∨ b ≤ 1
    · rw [if_pos h] at hd
      exact absurd hd (List.not_mem_nil d)
    · rw [if_neg h] at hd
      push_neg at h
      rcases List.mem_append.mp hd with hm | hm
      · exact ih (n / b) (Nat.div_lt_self (by omega) (by omega)) d hm
      · have : d = n % b := by simpa using hm
        subst this
        exact Nat.mod_lt n (by omega)

theorem baseDigits_len (b : Nat) (hb : 2 ≤ b) :
    ∀ k n, n < b ^ k → (baseDigits b n).length ≤ k := by
  intro k
  induction k with
  | zero =>
    intro n hn
    have : n = 0 := by simpa using hn
    subst this
    simp [baseDigits, baseDigitsAux]
  | succ k ih =>
    intro n hn
    rw [baseDigits_unfold]
    by_cases h : n = 0 ∨ b ≤ 1
    · simp [h]
    · rw [if_neg h]
      push_neg at h
      have hq : n / b < b ^ k := by
        rw [Nat.div_lt_iff_lt_mul (by omega)]
        calc n < b ^ (k + 1) := hn
        _ = b ^ k * b := by ring
      have := ih (n / b) hq
      simp only [List.length_append, List.length_cons, List.length_nil]
      omega

theorem digitChar_zero : digitChar 0 = '0' := rfl

theorem octDigit_digitChar (d : Nat) (hd : d < 8) : octDigit (digitChar d) = some d := by
  interval_cases d <;> rfl

theorem hexDigit_digitChar (d : Nat) (hd : d < 16) : hexDigit (digitChar d) = some d := by
  interval_cases d <;> rfl

theorem digitChar_ne_plus (d : Nat) (hd : d < 16) : digitChar d ≠ '+' := by
  interval_cases d <;> decide

theorem goIsSpace_digitChar (d : Nat) (hd : d < 16) : goIsSpace (digitChar d) = false := by
  interval_cases d <;> decide

theorem padBase_map (b w n : Nat) :
    padBase b w n =
      (List.replicate (w - (baseDigits b n).length) 0 ++ baseDigits b n).map digitChar := by
  simp [padBase, List.map_replicate, digitChar_zero, List.length_map]

theorem foldl_replicate_zero (b j : Nat) :
    (List.replicate j 0).foldl (fun a d => a * b + d) 0 = 0 := by
  induction j with
  | zero => rfl
  | succ j ih => simpa [List.replicate_succ] using ih

theorem digBaseVal_pad (b j : Nat) (ds : List Nat) :
    digBaseVal b (List.replicate j 0 ++ ds) = digBaseVal b ds := by
  unfold digBaseVal
  rw [List.foldl_append, foldl_replicate_zero]

theorem parseOctalAux_map (ds : List Nat) :
    ∀ acc, (∀ d ∈ ds, d < 8) →
      parseOctalAux (ds.map digitChar) acc = some (ds.foldl (fun a d => a * 8 + d) acc) := by
  induction ds with
  | nil => intro acc _; rfl
  | cons d rest ih =>
    intro acc h
    have hd : d < 8 := h d (List.mem_cons_self d rest)
    simp only [List.map_cons, parseOctalAux, octDigit_digitChar d hd, List.foldl_cons]
    exact ih (acc * 8 + d) fun x hx => h x (List.mem_cons_of_mem d hx)

/-- The mode-digit list before mapping to characters: `m < 4096` gives
exactly four octal digits. -/
theorem modeString_eq (m : Nat) (hm : m < 4096) :
    modeString m =
      (List.replicate (4 - (baseDigits 8 m).length) 0 ++ baseDigits 8 m).map digitChar := by
  have hlen : (baseDigits 8 m).length ≤ 4 := baseDigits_len 8 (by omega) 4 m (by omega)
  unfold modeString
  rw [padBase_map]
  apply List.take_of_length_le
  simp only [List.length_map, List.length_append, List.length_replicate]
  omega

theorem NewModeString_modeString (m : Nat) (hm : m < 4096) :
    NewModeString (modeString m) = .ok m := by
  have hlen : (baseDigits 8 m).length ≤ 4 := baseDigits_len 8 (by omega) 4 m (by omega)
  rw [modeString_eq m hm]
  have hne : (List.replicate (4 - (baseDigits 8 m).length) 0 ++ baseDigits 8 m).map digitChar ≠ [] := by
    apply List.ne_nil_of_length_pos
    simp only [List.length_map, List.length_append, List.length_replicate]
    omega
  have hbound : ∀ d ∈ List.replicate (4 - (baseDigits 8 m).length) 0 ++ baseDigits 8 m, d < 8 := by
    intro d hd
    rcases List.mem_append.mp hd with hm' | hm'
    · have := List.eq_of_mem_replicate hm'
      omega
    · exact baseDigits_lt 8 m d hm'
  unfold NewModeString
  rw [if_neg hne, parseOctalAux_map _ 0 hbound]
  have hv : (List.replicate (4 - (baseDigits 8 m).length) 0 ++ baseDigits 8 m).foldl
      (fun a d => a * 8 + d) 0 = m := by
    have := digBaseVal_pad 8 (4 - (baseDigits 8 m).length) (baseDigits 8 m)
    unfold digBaseVal at this
    rw [this]
    exact baseDigits_val 8 (by omega) m
  rw [hv]
  simp [hm]

theorem modeString_chars (m : Nat) (hm : m < 4096) :
    ∀ c ∈ modeString m, ∃ d, d < 8 ∧ c = digitChar d := by
  rw [modeString_eq m hm]
  intro c hc
  rcases List.mem_map.mp hc with ⟨d, hd, rfl⟩
  refine ⟨d, ?_, rfl⟩
  rcases List.mem_append.mp hd with hm' | hm'
  · have := List.eq_of_mem_replicate hm'
    omega
  · exact baseDigits_lt 8 m d hm'

/-! ### splitPlus and goTrimSpace on clean strings -/

theorem splitPlus_no_plus (xs : GoStr) (h : ∀ c ∈ xs, c ≠ '+') :
    splitPlus xs = (xs, none) := by
  induction xs with
  | nil => rfl
  | cons c rest ih =>
    unfold splitPlus
    rw [if_neg (h c (List.mem_cons_self c rest))]
    rw [ih fun x hx => h x (List.mem_cons_of_mem c hx)]

theorem splitPlus_append (xs ys : GoStr) (h : ∀ c ∈ xs, c ≠ '+') :
    splitPlus (xs ++ '+' :: ys) = (xs, some ys) := by
  induction xs with
  | nil => simp [splitPlus]
  | cons c rest ih =>
    show splitPlus (c :: (rest ++ '+' :: ys)) = (c :: rest, some ys)
    unfold splitPlus
    rw [if_neg (h c (List.mem_cons_self c rest))]
    rw [ih fun x hx => h x (List.mem_cons_of_mem c hx)]

theorem dropWhile_eq_self_of_none (p : Char → Bool) (xs : GoStr)
    (h : ∀ c ∈ xs, p c = false) : xs.dropWhile p = xs := by
  cases xs with
  | nil => rfl
  | cons c rest =>
    rw [List.dropWhile_cons_of_neg]
    simp [h c (List.mem_cons_self c rest)]

theorem goTrimSpace_eq_self (xs : GoStr) (h : ∀ c ∈ xs, goIsSpace c = false) :
    goTrimSpace xs = xs := by
  unfold goTrimSpace
  rw [dropWhile_eq_self_of_none _ _ h]
  rw [dropWhile_eq_self_of_none _ _ fun c hc => h c (List.mem_reverse.mp hc)]
  exact List.reverse_reverse xs

/-! ### Attribute letters round-trip -/

/-- The bits that `NewAttrString` recovers from the formatted letters of `a`,
restricted to the table suffix `l`. -/
def orFlags (a : Nat) : List (Nat × Char) → Nat
  | [] => 0
  | p :: rest => if a &&& p.1 ≠ 0 then p.1 ||| orFlags a rest else orFlags a rest

theorem NewAttrString_filter (a : Nat) :
    ∀ l : List (Nat × Char),
      (∀ p ∈ l, attrRep.find? (fun q => q.2 = p.2) = some p) →
      NewAttrString ((l.filter fun p => a &&& p.1 ≠ 0).map (·.2)) = .ok (orFlags a l) := by
  intro l
  induction l with
  | nil => intro _; rfl
  | cons p rest ih =>
    intro h
    by_cases hp : a &&& p.1 ≠ 0
    · rw [List.filter_cons_of_pos (by simpa using hp), List.map_cons]
      show NewAttrString (p.2 :: _) = _
      unfold NewAttrString
      rw [h p (List.mem_cons_self p rest)]
      rw [ih fun q hq => h q (List.mem_cons_of_mem p hq)]
      simp [orFlags, hp]
    · rw [List.filter_cons_of_neg (by simpa using hp)]
      rw [ih fun q hq => h q (List.mem_cons_of_mem p hq)]
      simp [orFlags, hp]

theorem find?_attrRep_self : ∀ p ∈ attrRep, attrRep.find? (fun q => q.2 = p.2) = some p := by
  decide

theorem testBit_if_pow (a j k : Nat) :
    (if a &&& 2 ^ j ≠ 0 then 2 ^ j else 0).testBit k = (a.testBit j && decide (j = k)) := by
  have hax : a &&& 2 ^ j = (a.testBit j).toNat * 2 ^ j := Nat.and_two_pow a j
  have hp : 0 < 2 ^ j := Nat.pos_pow_of_pos j (by omega)
  by_cases h : a &&& 2 ^ j ≠ 0
  · rw [if_pos h]
    have ht : a.testBit j = true := by
      cases hb : a.testBit j
      · rw [hb] at hax; simp at hax; exact absurd hax h
      · rfl
    rw [ht, Bool.true_and]
    by_cases hjk : j = k
    · subst hjk; simp [Nat.testBit_two_pow_self]
    · simp [Nat.testBit_two_pow_of_ne hjk, hjk]
  · rw [if_neg h]
    push_neg at h
    have ht : a.testBit j = false := by
      cases hb : a.testBit j
      · rfl
      · rw [hb] at hax
        simp at hax
        omega
    simp [ht]

theorem attrRepMask_lor : attrRepMask =
    2 ^ 0 ||| (2 ^ 1 ||| (2 ^ 3 ||| (2 ^ 4 ||| (2 ^ 6 ||| (2 ^ 7 |||
      (2 ^ 8 ||| (2 ^ 9 ||| (2 ^ 10 ||| 2 ^ 11)))))))) := by decide

theorem orFlags_attrRep (a : Nat) : orFlags a attrRep = a &&& attrRepMask := by
  apply Nat.eq_of_testBit_eq
  intro k
  have hchain : orFlags a attrRep =
      (if a &&& 2 ^ 0 ≠ 0 then 2 ^ 0 else 0) |||
      ((if a &&& 2 ^ 1 ≠ 0 then 2 ^ 1 else 0) |||
      ((if a &&& 2 ^ 6 ≠ 0 then 2 ^ 6 else 0) |||
      ((if a &&& 2 ^ 3 ≠ 0 then 2 ^ 3 else 0) |||
      ((if a &&& 2 ^ 4 ≠ 0 then 2 ^ 4 else 0) |||
      ((if a &&& 2 ^ 7 ≠ 0 then 2 ^ 7 else 0) |||
      ((if a &&& 2 ^ 8 ≠ 0 then 2 ^ 8 else 0) |||
      ((if a &&& 2 ^ 9 ≠ 0 then 2 ^ 9 else 0) |||
      ((if a &&& 2 ^ 10 ≠ 0 then 2 ^ 10 else 0) |||
      (if a &&& 2 ^ 11 ≠ 0 then 2 ^ 11 else 0))))))))) := by
    have hio : ∀ (c : Prop) [Decidable c] (f x : Nat),
        (if c then f ||| x else x) = (if c then f else 0) ||| x := by
      intro c _ f x
      split <;> simp
    have hz0 : ∀ n : Nat, n ||| 0 = n := fun n => by simp
    simp only [attrRep, AttrUID, AttrGID, AttrSpecial, AttrMtime, AttrCtime, AttrX,
      AttrInclusive, AttrNoName, AttrNoData, AttrFollow, orFlags, Nat.shiftLeft_eq,
      one_mul, hz0, hio]
  have htp : ∀ j k' : Nat, (2 ^ j).testBit k' = decide (j = k') := by
    intro j k'
    by_cases hjk : j = k'
    · subst hjk; simp [Nat.testBit_two_pow_self]
    · simp [Nat.testBit_two_pow_of_ne hjk, hjk]
  rw [hchain, attrRepMask_lor]
  simp only [Nat.testBit_lor, Nat.testBit_land, testBit_if_pow, htp]
  rcases Nat.lt_or_ge k 12 with hk | hk
  · interval_cases k <;> simp
  · have hne : ∀ j : Nat, j < 12 → decide (j = k) = false := by
      intro j hj
      simp only [decide_eq_false_iff_not]
      omega
    rw [hne 0 (by omega), hne 1 (by omega), hne 3 (by omega), hne 4 (by omega),
      hne 6 (by omega), hne 7 (by omega), hne 8 (by omega), hne 9 (by omega),
      hne 10 (by omega), hne 11 (by omega)]
    simp

theorem orFlags_zero (a : Nat) :
    ∀ l : List (Nat × Char), (∀ p ∈ l, a &&& p.1 = 0) → orFlags a l = 0 := by
  intro l
  induction l with
  | nil => intro _; rfl
  | cons p rest ih =>
    intro h
    unfold orFlags
    rw [if_neg (by simpa using h p (List.mem_cons_self p rest))]
    exact ih fun q hq => h q (List.mem_cons_of_mem p hq)

theorem NewAttrString_attrString (a : Nat) (ha : a &&& attrRepMask = a) :
    NewAttrString (attrString a) = .ok a := by
  unfold attrString
  rw [NewAttrString_filter a attrRep find?_attrRep_self, orFlags_attrRep, ha]

theorem attrString_nil (a : Nat) (ha : a &&& attrRepMask = a) (h : attrString a = []) :
    a = 0 := by
  unfold attrString at h
  rw [List.map_eq_nil_iff] at h
  have hz : ∀ p ∈ attrRep, a &&& p.1 = 0 := by
    intro p hp
    by_contra hc
    have : p ∈ attrRep.filter fun p => a &&& p.1 ≠ 0 :=
      List.mem_filter.mpr ⟨hp, by simpa using hc⟩
    rw [h] at this
    exact absurd this (List.not_mem_nil p)
  have := orFlags_zero a attrRep hz
  rw [orFlags_attrRep, ha] at this
  exact this

/-! ### Hex formatting round-trip -/

theorem hexDecode_map4 (d1 d2 d3 d4 : Nat) (h1 : d1 < 16) (h2 : d2 < 16)
    (h3 : d3 < 16) (h4 : d4 < 16) :
    hexDecode ([d1, d2, d3, d4].map digitChar) = some [d1 * 16 + d2, d3 * 16 + d4] := by
  simp [hexDecode, hexDigit_digitChar, h1, h2, h3, h4]

theorem list_len3 (l : List Nat) (h : l.length = 3) : ∃ x y z, l = [x, y, z] := by
  match l, h with
  | [x, y, z], _ => exact ⟨x, y, z, rfl⟩

theorem list_len4 (l : List Nat) (h : l.length = 4) : ∃ w x y z, l = [w, x, y, z] := by
  match l, h with
  | [w, x, y, z], _ => exact ⟨w, x, y, z, rfl⟩

theorem modeHex_eq (m : Nat) (hm : m < 4096) :
    ∃ x y z, x < 16 ∧ y < 16 ∧ z < 16 ∧
      modeHex m = [digitChar x, digitChar y, digitChar z] ∧ m = (x * 16 + y) * 16 + z := by
  have hmod : m % 65536 = m := Nat.mod_eq_of_lt (by omega)
  have hlen : (baseDigits 16 m).length ≤ 3 := baseDigits_len 16 (by omega) 3 m (by omega)
  set ds := baseDigits 16 m with hds
  have hqs : List.replicate (4 - ds.length) 0 = 0 :: List.replicate (3 - ds.length) 0 := by
    have : 4 - ds.length = (3 - ds.length) + 1 := by omega
    rw [this, List.replicate_succ]
  have hlen3 : (List.replicate (3 - ds.length) 0 ++ ds).length = 3 := by
    simp only [List.length_append, List.length_replicate]
    omega
  obtain ⟨x, y, z, hxyz⟩ := list_len3 _ hlen3
  have hval : digBaseVal 16 (List.replicate (3 - ds.length) 0 ++ ds) = m := by
    rw [digBaseVal_pad]
    exact baseDigits_val 16 (by omega) m
  have hbound : ∀ d ∈ List.replicate (3 - ds.length) 0 ++ ds, d < 16 := by
    intro d hd
    rcases List.mem_append.mp hd with hm' | hm'
    · have := List.eq_of_mem_replicate hm'
      omega
    · exact baseDigits_lt 16 m d hm'
  refine ⟨x, y, z, ?_, ?_, ?_, ?_, ?_⟩
  · exact hbound x (by rw [hxyz]; simp)
  · exact hbound y (by rw [hxyz]; simp)
  · exact hbound z (by rw [hxyz]; simp)
  · unfold modeHex
    rw [hmod, padBase_map, ← hds, hqs, List.cons_append, hxyz]
    simp
  · rw [hxyz] at hval
    simp [digBaseVal] at hval
    omega

theorem NewModeHex_modeHex (m : Nat) (hm : m < 4096) :
    NewModeHex (modeHex m) = .ok m := by
  obtain ⟨x, y, z, hx, hy, hz, heq, hval⟩ := modeHex_eq m hm
  rw [heq]
  unfold NewModeHex
  rw [if_neg (by simp)]
  have h0 : ('0' : Char) = digitChar 0 := by decide
  have : ('0' :: [digitChar x, digitChar y, digitChar z] : GoStr) =
      [0, x, y, z].map digitChar := by
    simp only [List.map_cons, List.map_nil]
    rw [h0]
  rw [this, hexDecode_map4 0 x y z (by omega) hx hy hz]
  simp only [List.length_cons, List.length_nil]
  norm_num
  omega

theorem attrHex_eq (a : Nat) (ha : a < 65536) :
    ∃ w x y z, w < 16 ∧ x < 16 ∧ y < 16 ∧ z < 16 ∧
      attrHex a = [digitChar w, digitChar x, digitChar y, digitChar z] ∧
      a = ((w * 16 + x) * 16 + y) * 16 + z := by
  have hmod : a % 65536 = a := Nat.mod_eq_of_lt (by omega)
  have hlen : (baseDigits 16 a).length ≤ 4 := baseDigits_len 16 (by omega) 4 a (by omega)
  set ds := baseDigits 16 a with hds
  have hlen4 : (List.replicate (4 - ds.length) 0 ++ ds).length = 4 := by
    simp only [List.length_append, List.length_replicate]
    omega
  obtain ⟨w, x, y, z, hwxyz⟩ := list_len4 _ hlen4
  have hval : digBaseVal 16 (List.replicate (4 - ds.length) 0 ++ ds) = a := by
    rw [digBaseVal_pad]
    exact baseDigits_val 16 (by omega) a
  have hbound : ∀ d ∈ List.replicate (4 - ds.length) 0 ++ ds, d < 16 := by
    intro d hd
    rcases List.mem_append.mp hd with hm' | hm'
    · have := List.eq_of_mem_replicate hm'
      omega
    · exact baseDigits_lt 16 a d hm'
  refine ⟨w, x, y, z, ?_, ?_, ?_, ?_, ?_, ?_⟩
  · exact hbound w (by rw [hwxyz]; simp)
  · exact hbound x (by rw [hwxyz]; simp)
  · exact hbound y (by rw [hwxyz]; simp)
  · exact hbound z (by rw [hwxyz]; simp)
  · unfold attrHex
    rw [hmod, padBase_map, ← hds, hwxyz]
    simp
  · rw [hwxyz] at hval
    simp [digBaseVal] at hval
    omega

theorem NewAttrHex_attrHex (a : Nat) (ha : a < 65536) :
    NewAttrHex (attrHex a) = .ok a := by
  obtain ⟨w, x, y, z, hw, hx, hy, hz, heq, hval⟩ := attrHex_eq a ha
  rw [heq]
  unfold NewAttrHex
  rw [if_neg (by simp)]
  have : ([digitChar w, digitChar x, digitChar y, digitChar z] : GoStr) =
      [w, x, y, z].map digitChar := by simp
  rw [this, hexDecode_map4 w x y z hw hx hy hz]
  norm_num
  omega

/-! ### Mask round-trips -/

theorem NewMaskString_string (m a : Nat) (hm : m < 4096) (ha : a &&& attrRepMask = a) :
    NewMaskString (Mask.string ⟨m, a⟩) = .ok ⟨m, a⟩ := by
  have hchars := modeString_chars m hm
  have hplus : ∀ c ∈ modeString m, c ≠ '+' := by
    intro c hc
    obtain ⟨d, hd, rfl⟩ := hchars c hc
    exact digitChar_ne_plus d (by omega)
  have hspace : ∀ c ∈ modeString m, goIsSpace c = false := by
    intro c hc
    obtain ⟨d, hd, rfl⟩ := hchars c hc
    exact goIsSpace_digitChar d (by omega)
  unfold Mask.string
  by_cases hnil : attrString a = []
  · rw [if_pos hnil]
    unfold NewMaskString
    rw [splitPlus_no_plus _ hplus]
    simp only [Option.getD_none]
    rw [goTrimSpace_eq_self _ hspace, NewModeString_modeString m hm]
    have ha0 : a = 0 := attrString_nil a ha hnil
    subst ha0
    rfl
  · rw [if_neg hnil]
    unfold NewMaskString
    rw [splitPlus_append _ _ hplus]
    simp only [Option.getD_some]
    rw [goTrimSpace_eq_self _ hspace, NewModeString_modeString m hm,
      NewAttrString_attrString a ha]

theorem NewMaskHex_hex (m a : Nat) (hm : m < 4096) (ha : a < 65536) :
    NewMaskHex (Mask.hex ⟨m, a⟩) = .ok ⟨m, a⟩ := by
  obtain ⟨x, y, z, hx, hy, hz, heq, _⟩ := modeHex_eq m hm
  obtain ⟨p, q, r, s, hp, hq, hr, hs, heqa, _⟩ := attrHex_eq a ha
  have hs8 : (Mask.hex ⟨m, a⟩) =
      'a' :: ([digitChar x, digitChar y, digitChar z] ++
        [digitChar p, digitChar q, digitChar r, digitChar s]) := by
    unfold Mask.hex
    rw [heq, heqa]
    simp
  rw [hs8]
  unfold NewMaskHex
  rw [if_neg (by simp)]
  rw [if_neg (by simp)]
  rw [if_neg (by simp)]
  have hdrop1 : (('a' :: ([digitChar x, digitChar y, digitChar z] ++
      [digitChar p, digitChar q, digitChar r, digitChar s]) : GoStr)).drop 1 =
      [digitChar x, digitChar y, digitChar z] ++
        [digitChar p, digitChar q, digitChar r, digitChar s] := rfl
  have htake : (([digitChar x, digitChar y, digitChar z] ++
      [digitChar p, digitChar q, digitChar r, digitChar s] : GoStr)).take 3 =
      [digitChar x, digitChar y, digitChar z] := rfl
  have hdrop4 : (('a' :: ([digitChar x, digitChar y, digitChar z] ++
      [digitChar p, digitChar q, digitChar r, digitChar s]) : GoStr)).drop 4 =
      [digitChar p, digitChar q, digitChar r, digitChar s] := rfl
  rw [hdrop1] at *
  rw [htake, hdrop4, ← heq, ← heqa, NewModeHex_modeHex m hm, NewAttrHex_attrHex a ha]

/-- C2: both textual mask encodings round-trip losslessly over the mask space
(12-bit mode, attribute set drawn from the ten defined option flags). -/
theorem mask_roundtrip (m a : Nat) (hm : m < 4096) (ha : a &&& attrRepMask = a) :
    NewMaskString (Mask.string ⟨m, a⟩) = .ok ⟨m, a⟩ ∧
    NewMaskHex (Mask.hex ⟨m, a⟩) = .ok ⟨m, a⟩ := by
  have ha' : a < 65536 := by
    have h1 : a &&& attrRepMask ≤ attrRepMask := Nat.and_le_right
    rw [ha] at h1
    unfold attrRepMask at h1
    omega
  exact ⟨NewMaskString_string m a hm ha, NewMaskHex_hex m a hm ha'⟩

/-- Witness for C2 at mode `0644`, attributes `su` (bits 6 and 0). -/
theorem mask_roundtrip_witness :
    NewMaskString (Mask.string ⟨420, 65⟩) = .ok ⟨420, 65⟩ ∧
    NewMaskHex (Mask.hex ⟨420, 65⟩) = .ok ⟨420, 65⟩ :=
  mask_roundtrip 420 65 (by decide) (by decide)

/-- C8 counterexample: `"7777+ugis"` parses to mask `(0o7777, u|g|s|i)` =
`(4095, 0x143)`, while the opaque string `"a1ff00e5"` parses to
`(0x1ff, 0xe5)`; the two masks differ, and formatting the first yields
`"7777+ugsi"` (table order), not the original `"7777+ugis"`. -/
theorem mask_example_mismatch :
    NewMaskString "7777+ugis".data = .ok ⟨4095, 323⟩ ∧
    NewMaskHex "a1ff00e5".data = .ok ⟨511, 229⟩ ∧
    (Mask.mk 4095 323 ≠ Mask.mk 511 229) ∧
    Mask.string ⟨4095, 323⟩ = "7777+ugsi".data ∧
    "7777+ugsi".data ≠ "7777+ugis".data := by
  refine ⟨by decide, by decide, by decide, by decide, by decide⟩

/-- C8 amended: the human form `"7777+ugsi"` and the opaque form
`"afff0143"` parse to the same mask `(4095, 0x143)`, and each parse
result formats back to its original input string. -/
theorem mask_example_roundtrip :
    NewMaskString "7777+ugsi".data = .ok ⟨4095, 323⟩ ∧
    NewMaskHex "afff0143".data = .ok ⟨4095, 323⟩ ∧
    Mask.string ⟨4095, 323⟩ = "7777+ugsi".data ∧
    Mask.hex ⟨4095, 323⟩ = "afff0143".data := by
  refine ⟨by decide, by decide, by decide, by decide⟩

/-- C9: `NewMaskHex` checks only `len(s) < 3` before slicing `s[1:4]`, so the
length-3 input `"aff"` (leading `a`, hex digits) panics with an out-of-range
slice instead of returning an error value. -/
theorem NewMaskHex_len3_panics :
    NewMaskHex "aff".data = .panics ∧ NewMaskHex "A12".data = .panics := by
  refine ⟨by decide, by decide⟩

/-! ## Canonical DER encoder (encoding/encoding.go)

Faithful byte-level model of `asn1.Marshal` on the specific structures the
encoder passes to it: definite-length DER, explicit context tags, minimal
two's-complement INTEGERs, 32-bit BIT STRINGs with zero padding bits, and
SET OF elements sorted by `bytes.Compare` of their encodings (Go ≥ 1.15). -/

/-- Big-endian encoding of `n mod 256^k` in exactly `k` bytes. -/
def beBytes : Nat → Nat → Bytes
  | 0, _ => []
  | k + 1, n => beBytes k (n / 256) ++ [n % 256]

/-- Number of significant bits of `n` (fuel-indexed; `fuel = n` suffices). -/
def natBitsAux : Nat → Nat → Nat
  | _, 0 => 0
  | n, f + 1 => if n = 0 then 0 else natBitsAux (n / 2) f + 1

def natBits (n : Nat) : Nat := natBitsAux n n

/-- Minimal big-endian bytes of a nonnegative integer (at least one byte). -/
def natBytes (n : Nat) : Bytes := beBytes (max 1 ((natBits n + 7) / 8)) n

/-- Octet length of the minimal two's-complement encoding of `i`. -/
def intOctetLen (i : Int) : Nat :=
  if 0 ≤ i then (natBits i.toNat + 8) / 8
  else max 1 ((natBits ((-i).toNat - 1) + 8) / 8)

/-- Minimal two's-complement big-endian content bytes of `i`. -/
def intContent (i : Int) : Bytes :=
  let k := intOctetLen i
  beBytes k (i % ((2 : Int) ^ (8 * k))).toNat

/-- DER definite length octets. -/
def lenBytes (n : Nat) : Bytes :=
  if n < 128 then [n] else (128 + (natBytes n).length) :: natBytes n

/-- A tag-length-value triple. -/
def tlv (tag : Nat) (content : Bytes) : Bytes :=
  tag :: lenBytes content.length ++ content

def asn1Int (i : Int) : Bytes := tlv 0x02 (intContent i)
def asn1Enum (n : Nat) : Bytes := tlv 0x0a (intContent (Int.ofNat n))
def asn1Octets (b : Bytes) : Bytes := tlv 0x04 b
/-- BIT STRING with `BitLength: 32`: zero unused bits, four content bytes. -/
def asn1BitString32 (v : Nat) : Bytes := tlv 0x03 (0 :: beBytes 4 v)
def asn1Seq (content : Bytes) : Bytes := tlv 0x30 content
def asn1SetRaw (content : Bytes) : Bytes := tlv 0x31 content
def explicitTag (n : Nat) (inner : Bytes) : Bytes := tlv (0xa0 + n) inner

/-- `bytes.Compare(a, b) <= 0`. -/
def bytesLE : Bytes → Bytes → Bool
  | [], _ => true
  | _ :: _, [] => false
  | a :: as, b :: bs => if a < b then true else if b < a then false else bytesLE as bs

/-- The ordering used for DER SET OF elements, as a relation. -/
def bytesLEr (a b : Bytes) : Prop := bytesLE a b = true

instance : DecidableRel bytesLEr := fun a b => decEq (bytesLE a b) true

/-- `encoding.NamedHash`: a digest plus an optional name
(empty = absent, matching Go's `omitempty` on a nil/empty slice). -/
structure NamedHash where
  hash : Bytes
  name : Bytes
  deriving DecidableEq, Repr

/-- DER of one `HashEntry ::= SEQUENCE { hash OCTET STRING, name OCTET STRING OPTIONAL }`. -/
def hashEntryDER (h : NamedHash) : Bytes :=
  asn1Seq (asn1Octets h.hash ++ if h.name = [] then [] else asn1Octets h.name)

/-- DER SET OF: element encodings sorted ascending by `bytes.Compare`, joined. -/
def setOfDER (elems : List Bytes) : Bytes :=
  asn1SetRaw (List.insertionSort bytesLEr elems).flatten

/-- DER of `HashTree ::= SEQUENCE { hashType ENUMERATED, tree SET OF HashEntry }`. -/
def hashTreeDER (hashType : Nat) (hashes : List NamedHash) : Bytes :=
  asn1Seq (asn1Enum hashType ++ setOfDER (hashes.map hashEntryDER))

/-- `encoding.TreeASN1DER`. -/
def TreeASN1DER (hashType : Nat) (hashes : List NamedHash) : Bytes :=
  hashTreeDER hashType hashes

/-! ### os.FileMode bits -/

def ModeDir : Nat := 1 <<< 31
def ModeSymlink : Nat := 1 <<< 27
def ModeDevice : Nat := 1 <<< 26
def ModeNamedPipe : Nat := 1 <<< 25
def ModeSocket : Nat := 1 <<< 24
def ModeSetuid : Nat := 1 <<< 23
def ModeSetgid : Nat := 1 <<< 22
def ModeCharDevice : Nat := 1 <<< 21
def ModeSticky : Nat := 1 <<< 20
def ModeIrregular : Nat := 1 <<< 19
def ModePerm : Nat := 0o777
def ModeType : Nat :=
  ModeDir ||| ModeSymlink ||| ModeNamedPipe ||| ModeSocket ||| ModeDevice |||
    ModeCharDevice ||| ModeIrregular

/-- `encoding.Timespec`. -/
structure EncTimespec where
  sec : Int
  nsec : Int
  deriving DecidableEq, Repr

/-- `encoding.Sys`: the optional fields selected for encoding.
`xattrHashes = []` corresponds to a nil Go slice (field omitted). -/
structure EncSys where
  uid : Option Nat
  gid : Option Nat
  mtime : Option EncTimespec
  ctime : Option EncTimespec
  rdev : Option Nat
  xattrHashes : List NamedHash
  xattrHashType : Nat
  deriving DecidableEq, Repr

def timespecDER (t : EncTimespec) : Bytes := asn1Seq (asn1Int t.sec ++ asn1Int t.nsec)
def hashDER (hashType : Nat) (hash : Bytes) : Bytes :=
  asn1Seq (asn1Enum hashType ++ asn1Octets hash)
def modeDER (mask mode : Nat) : Bytes :=
  asn1Seq (asn1BitString32 mask ++ asn1BitString32 mode)

/-- `hash [0]`: present unless `hashType` is the "none" code 0. -/
def fileHashField (hashType : Nat) (hash : Bytes) : Bytes :=
  if hashType ≠ 0 then explicitTag 0 (hashDER hashType hash) else []

/-- `mode [1]`: always present; `mode.mode` is `mode & mask`. -/
def fileModeField (mode mask : Nat) : Bytes :=
  explicitTag 1 (modeDER mask (mode &&& mask))

def fileUIDField (uid : Option Nat) : Bytes :=
  match uid with
  | some u => explicitTag 2 (asn1Int (Int.ofNat u))
  | none => []

def fileGIDField (gid : Option Nat) : Bytes :=
  match gid with
  | some g => explicitTag 3 (asn1Int (Int.ofNat g))
  | none => []

def fileMtimeField (t : Option EncTimespec) : Bytes :=
  match t with
  | some ts => explicitTag 5 (timespecDER ts)
  | none => []

def fileCtimeField (t : Option EncTimespec) : Bytes :=
  match t with
  | some ts => explicitTag 6 (timespecDER ts)
  | none => []

/-- `rdev [8]`: present only when supplied AND the (never-masked) mode has a
device or char-device type bit. -/
def fileRdevField (mode : Nat) (rdev : Option Nat) : Bytes :=
  match rdev with
  | some r =>
    if mode &&& (ModeDevice ||| ModeCharDevice) ≠ 0 then explicitTag 8 (asn1Int (Int.ofNat r))
    else []
  | none => []

/-- `xattr [9]`: present only when the Go slice is non-nil (modelled: nonempty). -/
def fileXattrField (sys : EncSys) : Bytes :=
  if sys.xattrHashes = [] then []
  else explicitTag 9 (hashTreeDER sys.xattrHashType sys.xattrHashes)

/-- `encoding.FileASN1DER`. -/
def FileASN1DER (hashType : Nat) (hash : Bytes) (mode mask : Nat) (sys : EncSys) : Bytes :=
  asn1Seq (fileHashField hashType hash ++ fileModeField mode mask ++
    fileUIDField sys.uid ++ fileGIDField sys.gid ++ fileMtimeField sys.mtime ++
    fileCtimeField sys.ctime ++ fileRdevField mode sys.rdev ++ fileXattrField sys)

/-! ### The SET OF order is total, transitive and antisymmetric -/

theorem bytesLE_total : ∀ a b : Bytes, bytesLE a b = true ∨ bytesLE b a = true := by
  intro a
  induction a with
  | nil => intro b; left; rfl
  | cons x as ih =>
    intro b
    cases b with
    | nil => right; rfl
    | cons y bs =>
      unfold bytesLE
      rcases Nat.lt_trichotomy x y with h | h | h
      · left; rw [if_pos h]
      · subst h
        rw [if_neg (by omega), if_neg (by omega), if_neg (by omega), if_neg (by omega)]
        exact ih bs
      · right; rw [if_pos h]

theorem bytesLE_trans :
    ∀ a b c : Bytes, bytesLE a b = true → bytesLE b c = true → bytesLE a c = true := by
  intro a
  induction a with
  | nil => intro b c _ _; rfl
  | cons x as ih =>
    intro b c hab hbc
    cases b with
    | nil => exact absurd hab (by simp [bytesLE])
    | cons y bs =>
      cases c with
      | nil => exact absurd hbc (by simp [bytesLE])
      | cons z cs =>
        unfold bytesLE at hab hbc ⊢
        rcases Nat.lt_trichotomy x y with hxy | hxy | hxy
        · rcases Nat.lt_trichotomy y z with hyz | hyz | hyz
          · rw [if_pos (by omega)]
          · subst hyz; rw [if_pos hxy]
          · rw [if_neg (by omega), if_pos hyz] at hbc
            exact absurd hbc (by simp)
        · subst hxy
          rw [if_neg (by omega), if_neg (by omega)] at hab
          rcases Nat.lt_trichotomy x z with hyz | hyz | hyz
          · rw [if_pos hyz]
          · subst hyz
            rw [if_neg (by omega), if_neg (by omega)] at hbc ⊢
            exact ih bs cs hab hbc
          · rw [if_neg (by omega), if_pos hyz] at hbc
            exact absurd hbc (by simp)
        · rw [if_neg (by omega), if_pos hxy] at hab
          exact absurd hab (by simp)

theorem bytesLE_antisymm :
    ∀ a b : Bytes, bytesLE a b = true → bytesLE b a = true → a = b := by
  intro a
  induction a with
  | nil =>
    intro b _ hba
    cases b with
    | nil => rfl
    | cons y bs => exact absurd hba (by simp [bytesLE])
  | cons x as ih =>
    intro b hab hba
    cases b with
    | nil => exact absurd hab (by simp [bytesLE])
    | cons y bs =>
      unfold bytesLE at hab hba
      rcases Nat.lt_trichotomy x y with hxy | hxy | hxy
      · rw [if_neg (by omega), if_pos hxy] at hba
        exact absurd hba (by simp)
      · subst hxy
        rw [if_neg (by omega), if_neg (by omega)] at hab hba
        rw [ih bs hab hba]
      · rw [if_neg (by omega), if_pos hxy] at hab
        exact absurd hab (by simp)

instance : IsTotal Bytes bytesLEr := ⟨bytesLE_total⟩
instance : IsTrans Bytes bytesLEr := ⟨bytesLE_trans⟩
instance : IsAntisymm Bytes bytesLEr := ⟨bytesLE_antisymm⟩

theorem insertionSort_perm_eq {l l' : List Bytes} (hp : l.Perm l') :
    List.insertionSort bytesLEr l = List.insertionSort bytesLEr l' :=
  List.eq_of_perm_of_sorted
    ((List.perm_insertionSort bytesLEr l).trans
      (hp.trans (List.perm_insertionSort bytesLEr l').symm))
    (List.sorted_insertionSort bytesLEr l)
    (List.sorted_insertionSort bytesLEr l')

/-- Permuting the entry list does not change the canonical tree encoding. -/
theorem TreeASN1DER_perm (t : Nat) {l l' : List NamedHash} (hp : l.Perm l') :
    TreeASN1DER t l = TreeASN1DER t l' := by
  unfold TreeASN1DER hashTreeDER setOfDER
  rw [insertionSort_perm_eq (hp.map hashEntryDER)]

/-! ## The Merkle walker (sum.go / file.go)

The walker is modelled over an in-memory filesystem tree whose nodes carry
the data the platform adapter would return: permission bits, the optional
`Sys` record (`none` models `getSys` returning `ErrNoStat`), the optional
xattr digest list (`none` models a `getXattr` failure), and contents.
The walk is sequential (children in list order model one completion order of
the concurrent child walks) and fuel-indexed so that it computes by
reduction; fuel is always sufficient above the tree depth, and running out
produces a distinguished model-only error. -/

/-- The platform `Sys` record (sys_linux.go `getSys`): on success all five
fields are present. -/
structure SysP where
  uid : Nat
  gid : Nat
  mtime : EncTimespec
  ctime : EncTimespec
  rdev : Nat
  deriving DecidableEq, Repr

/-- `xsum.Xattr`. -/
structure XattrM where
  hashType : Nat
  hashes : List NamedHash
  deriving DecidableEq, Repr

/-- Error values of the engine. `fileErr` is `*xsum.FileError`; the leaf
constructors model the distinguished sentinel errors and opaque OS errors. -/
inductive GoErr where
  | noStat
  | noXattr
  | xattrFail
  | directory
  | linkBroken
  | outOfFuel
  | fileErr (action : GoStr) (path : GoStr) (subdir : Bool) (cause : GoErr)
  deriving DecidableEq, Repr

/-- `FileError.Error()` (and the sentinel error strings). -/
def GoErr.message : GoErr → GoStr
  | .noStat => "stat data unavailable".data
  | .noXattr => "xattr data unavailable".data
  | .xattrFail => "xattr failure".data
  | .directory => "is a directory".data
  | .linkBroken => "broken link".data
  | .outOfFuel => "model out of fuel".data
  | .fileErr action path subdir e =>
    if action = [] then path ++ ": ".data ++ e.message
    else if subdir then
      "failed to ".data ++ action ++ " `".data ++ path ++ "': ".data ++ e.message
    else
      path ++ ": failed to ".data ++ action ++ ": ".data ++ e.message

/-- Result of a fallible engine step. -/
inductive Res (ε α : Type) where
  | ok (a : α)
  | err (e : ε)
  deriving DecidableEq, Repr

/-- `xsum.Node` (with `base` standing for `filepath.Base(Path)`). -/
structure Node where
  base : GoStr
  path : GoStr
  mask : Mask
  sum : Bytes
  mode : Nat
  sys : Option SysP
  xattr : Option XattrM
  err : Option GoErr
  deriving DecidableEq, Repr

/-- The hash abstraction: the encoding code of the algorithm, `Metadata` on a
blob, and `File` on a file's contents. -/
structure HashImpl where
  code : Nat
  metadata : Bytes → Bytes
  file : Bytes → Bytes

/-- In-memory filesystem entry, as the platform adapter reports it. -/
inductive FsTree where
  | regular (perm : Nat) (sys : Option SysP) (xattr : Option (List NamedHash)) (content : Bytes)
  | dir (perm : Nat) (sys : Option SysP) (xattr : Option (List NamedHash))
        (children : List (GoStr × FsTree))
  | symlink (perm : Nat) (sys : Option SysP) (xattr : Option (List NamedHash))
            (target : Bytes) (resolved : Option FsTree)
  | special (typeBits : Nat) (perm : Nat) (sys : Option SysP)
            (xattr : Option (List NamedHash)) (content : Bytes)

/-- What `getSys(fi)` returns for the entry. -/
def FsTree.sysOf : FsTree → Option SysP
  | .regular _ s _ _ => s
  | .dir _ s _ _ => s
  | .symlink _ s _ _ _ => s
  | .special _ _ s _ _ => s

/-- What `getXattr` returns for the entry (`none` = failure). -/
def FsTree.xattrOf : FsTree → Option (List NamedHash)
  | .regular _ _ x _ => x
  | .dir _ _ x _ => x
  | .symlink _ _ x _ _ => x
  | .special _ _ _ x _ => x

/-- `fi.Mode()`: permission and special bits plus the type bit of the entry. -/
def FsTree.goMode : FsTree → Nat
  | .regular p _ _ _ => p
  | .dir p _ _ _ => ModeDir ||| p
  | .symlink p _ _ _ _ => ModeSymlink ||| p
  | .special tb p _ _ _ => tb ||| p

/-- The mask attributes whose absence from `Sys` is fatal
(`AttrUID|AttrGID|AttrSpecial|AttrMtime|AttrCtime`). -/
def attrFive : Nat := AttrUID ||| AttrGID ||| AttrSpecial ||| AttrMtime ||| AttrCtime

/-- uint16 flag clear (`attr &= ^flag`). -/
def clearAttr (a flag : Nat) : Nat := a &&& (65535 ^^^ flag)

/-- `[]byte(s)` for an ASCII name. -/
def strBytes (s : GoStr) : Bytes := s.map Char.toNat

/-- The `modeMask` computed inside `hashFileAttr`: the file-type bits are
always set; permission and special bits come from the user mask. -/
def hashFileAttrMask (mm : Nat) : Nat :=
  let specialMask :=
    (if mm &&& 0o4000 ≠ 0 then ModeSetuid else 0) |||
    (if mm &&& 0o2000 ≠ 0 then ModeSetgid else 0) |||
    (if mm &&& 0o1000 ≠ 0 then ModeSticky else 0)
  ModeType ||| (mm &&& ModePerm) ||| specialMask

/-- The `encoding.Sys` record `hashFileAttr` assembles: each field is copied
from the node exactly when the mask selects it. -/
def encSysOf (n : Node) : EncSys :=
  { uid := if n.mask.attr &&& AttrUID ≠ 0 then n.sys.map SysP.uid else none
    gid := if n.mask.attr &&& AttrGID ≠ 0 then n.sys.map SysP.gid else none
    mtime := if n.mask.attr &&& AttrMtime ≠ 0 then n.sys.map SysP.mtime else none
    ctime := if n.mask.attr &&& AttrCtime ≠ 0 then n.sys.map SysP.ctime else none
    rdev := if n.mask.attr &&& AttrSpecial ≠ 0 then n.sys.map SysP.rdev else none
    xattrHashes :=
      if n.mask.attr &&& AttrX ≠ 0 then
        (match n.xattr with
         | some x => x.hashes
         | none => [])
      else []
    xattrHashType :=
      if n.mask.attr &&& AttrX ≠ 0 then
        (match n.xattr with
         | some x => x.hashType
         | none => 0)
      else 0 }

/-- `xsum.hashFileAttr` (file.go): build the canonical `File` record for a
node and hash it with the node's metadata hash. -/
def hashFileAttr (h : HashImpl) (n : Node) : Res GoErr Bytes :=
  if n.sys = none ∧ n.mask.attr &&& attrFive ≠ 0 then .err .noStat
  else if n.xattr = none ∧ n.mask.attr &&& AttrX ≠ 0 then .err .noXattr
  else
    .ok (h.metadata (FileASN1DER (if n.sum ≠ [] then h.code else 0) n.sum n.mode
      (hashFileAttrMask n.mask.mode) (encSysOf n)))

theorem hashFileAttr_ok (h : HashImpl) (n : Node)
    (hc1 : ¬(n.sys = none ∧ n.mask.attr &&& attrFive ≠ 0))
    (hc2 : ¬(n.xattr = none ∧ n.mask.attr &&& AttrX ≠ 0)) :
    hashFileAttr h n = .ok (h.metadata (FileASN1DER (if n.sum ≠ [] then h.code else 0)
      n.sum n.mode (hashFileAttrMask n.mask.mode) (encSysOf n))) := by
  unfold hashFileAttr
  rw [if_neg hc1, if_neg hc2]

theorem hashFileAttr_noXattrErr (h : HashImpl) (n : Node)
    (hc1 : ¬(n.sys = none ∧ n.mask.attr &&& attrFive ≠ 0))
    (hc2 : n.xattr = none ∧ n.mask.attr &&& AttrX ≠ 0) :
    hashFileAttr h n = .err .noXattr := by
  unfold hashFileAttr
  rw [if_neg hc1, if_pos hc2]

/-- A `Node` carrying only `File` and `Err` (Go `&Node{File: file, Err: err}`:
all other fields are zero-valued). -/
def bareNode (base path : GoStr) (mask : Mask) (e : GoErr) : Node :=
  ⟨base, path, mask, [], 0, none, none, some e⟩

/-- `newFileErrorNode(action, file, subdir, err)`. -/
def errNode (base path : GoStr) (mask : Mask) (action : GoStr) (subdir : Bool)
    (e : GoErr) : Node :=
  bareNode base path mask (.fileErr action path subdir e)

/-- The error kinds of the per-child loop in the directory branch. -/
inductive CollectErr where
  | child (e : GoErr)
  | meta (e : GoErr)
  deriving DecidableEq, Repr

/-- The per-child loop of the directory branch (sum.go lines 184-205): stop
at the first child error or metadata-hash failure, otherwise collect one
`NamedHash` (digest of the child record, basename unless portable) per
child, in order. -/
def collectEntries (h : HashImpl) (portable : Bool) : List Node → Res CollectErr (List NamedHash)
  | [] => .ok []
  | n :: rest =>
    match n.err with
    | some e => .err (.child e)
    | none =>
      match hashFileAttr h n with
      | .err e => .err (.meta e)
      | .ok b =>
        match collectEntries h portable rest with
        | .err e => .err e
        | .ok hs => .ok (⟨b, if portable then [] else strBytes n.base⟩ :: hs)

/-- What `getXattr` feeds into the node when the mask requests xattrs. -/
def xattrVal (h : HashImpl) (t : FsTree) (mask : Mask) : Option XattrM :=
  if mask.attr &&& AttrX ≠ 0 then t.xattrOf.map (fun l => ⟨h.code, l⟩) else none

/-- Contents as read by `file.sum()` for the default branch. -/
def FsTree.contentOf : FsTree → Bytes
  | .regular _ _ _ content => content
  | .special _ _ _ _ content => content
  | _ => []

/-- The tail of `walkFile`: build the node, and for an inclusive top-level
entry replace its digest by the metadata-inclusive digest. -/
def finishNode (h : HashImpl) (base path : GoStr) (mode : Nat) (sys : Option SysP)
    (xattr : Option XattrM) (subdir : Bool) (origAttr : Nat) (mask' : Mask)
    (sum : Bytes) : Node :=
  let n : Node := ⟨base, path, mask', sum, mode, sys, xattr, none⟩
  if origAttr &&& AttrInclusive ≠ 0 ∧ ¬subdir then
    match hashFileAttr h n with
    | .err e => errNode base path mask' "hash metadata for file".data subdir e
    | .ok b => { n with sum := b }
  else n

/-- The directory branch of `walkFile`, applied to the walked child nodes. -/
def dirCase (h : HashImpl) (nD : Bool) (base path : GoStr) (mask : Mask) (subdir : Bool)
    (mode : Nat) (sys : Option SysP) (xattr : Option XattrM) (childNodes : List Node) : Node :=
  if nD then errNode base path mask [] subdir .directory
  else
    match collectEntries h (mask.attr &&& AttrNoName ≠ 0) childNodes with
    | .err (.child e) =>
      if subdir then bareNode base path mask e
      else errNode base path mask [] subdir e
    | .err (.meta e) =>
      errNode base path mask "hash metadata for file".data subdir e
    | .ok entries =>
      finishNode h base path mode sys xattr subdir mask.attr mask
        (h.metadata (TreeASN1DER h.code entries))

/-- The non-followed-symlink branch of `walkFile`. -/
def symlinkCase (h : HashImpl) (base path : GoStr) (mask : Mask) (subdir : Bool)
    (mode : Nat) (sys : Option SysP) (xattr : Option XattrM) (target : Bytes) : Node :=
  let noData := mask.attr &&& AttrNoData ≠ 0 ∧ (mask.attr &&& AttrInclusive ≠ 0 ∨ subdir = true)
  let a1 := clearAttr mask.attr AttrNoName
  if noData then
    finishNode h base path mode sys xattr subdir mask.attr ⟨mask.mode, a1 ||| AttrNoData⟩ []
  else
    finishNode h base path mode sys xattr subdir mask.attr ⟨mask.mode, clearAttr a1 AttrNoData⟩
      (h.metadata target)

/-- The default (regular or special file) branch of `walkFile`. -/
def defaultCase (h : HashImpl) (base path : GoStr) (mask : Mask) (subdir : Bool)
    (mode : Nat) (sys : Option SysP) (xattr : Option XattrM) (content : Bytes) : Node :=
  let noData := mask.attr &&& AttrNoData ≠ 0 ∧ (mask.attr &&& AttrInclusive ≠ 0 ∨ subdir = true)
  let a1 := clearAttr mask.attr AttrNoName
  if noData ∨ (¬mode &&& ModeType = 0 ∧ (mask.attr &&& AttrInclusive ≠ 0 ∨ subdir = true)) then
    finishNode h base path mode sys xattr subdir mask.attr ⟨mask.mode, a1 ||| AttrNoData⟩ []
  else
    finishNode h base path mode sys xattr subdir mask.attr ⟨mask.mode, clearAttr a1 AttrNoData⟩
      (h.file content)

/-- `Sum.walkFile` (sum.go lines 123-278), fuel-indexed.  `subdir` is true
below a top-level input.  Children of a directory are walked in list order
with the parent's (unmutated) mask, `subdir = true`, and path joined with
the child name. -/
def walkFile (h : HashImpl) (noDirs : Bool) :
    Nat → GoStr → GoStr → FsTree → Mask → Bool → Node
  | 0, path, base, t, mask, _ =>
    ⟨base, path, mask, [], t.goMode, t.sysOf, none, some .outOfFuel⟩
  | fuel + 1, path, base, t, mask, subdir =>
    -- validateMask: nil on POSIX; stat: the entry exists; getSys:
    if t.sysOf = none ∧ mask.attr &&& attrFive ≠ 0 then
      errNode base path mask "stat".data subdir .noStat
    else if mask.attr &&& AttrX ≠ 0 ∧ t.xattrOf = none then
      errNode base path mask "get xattr".data subdir .xattrFail
    else
      match t with
      | .dir _ _ _ children =>
        dirCase h noDirs base path mask subdir t.goMode t.sysOf (xattrVal h t mask)
          (children.map fun c =>
            walkFile h noDirs fuel (path ++ '/' :: c.1) c.1 c.2 mask true)
      | .symlink _ _ _ target resolved =>
        if mask.attr &&& AttrFollow ≠ 0 ∨
            (¬(mask.attr &&& AttrInclusive ≠ 0) ∧ ¬subdir) then
          match resolved with
          | none => errNode base path mask [] subdir .linkBroken
          | some rt => walkFile h noDirs fuel path base rt mask subdir
        else
          symlinkCase h base path mask subdir t.goMode t.sysOf (xattrVal h t mask) target
      | _ =>
        defaultCase h base path mask subdir t.goMode t.sysOf (xattrVal h t mask) t.contentOf

/-! ### Lemmas about the per-child loop -/

def Res.isOk : Res ε α → Bool
  | .ok _ => true
  | .err _ => false

/-- The entry the loop appends for a successful child node. -/
def entryVal (h : HashImpl) (p : Bool) (n : Node) : NamedHash :=
  ⟨(match hashFileAttr h n with
    | .ok b => b
    | .err _ => []),
   if p then [] else strBytes n.base⟩

theorem collectEntries_eq_of_all_ok (h : HashImpl) (p : Bool) :
    ∀ nodes : List Node,
      (∀ n ∈ nodes, n.err = none ∧ (hashFileAttr h n).isOk = true) →
      collectEntries h p nodes = .ok (nodes.map (entryVal h p)) := by
  intro nodes
  induction nodes with
  | nil => intro _; rfl
  | cons n rest ih =>
    intro hall
    have hn := hall n (List.mem_cons_self n rest)
    unfold collectEntries
    rw [hn.1]
    match hb : hashFileAttr h n with
    | .err e => rw [hb] at hn; exact absurd hn.2 (by simp [Res.isOk])
    | .ok b =>
      rw [ih fun x hx => hall x (List.mem_cons_of_mem n hx)]
      simp [entryVal, hb]

theorem collectEntries_all_ok (h : HashImpl) (p : Bool) :
    ∀ (nodes : List Node) (es : List NamedHash),
      collectEntries h p nodes = .ok es →
      ∀ n ∈ nodes, n.err = none ∧ (hashFileAttr h n).isOk = true := by
  intro nodes
  induction nodes with
  | nil => intro es _ n hn; exact absurd hn (List.not_mem_nil n)
  | cons n rest ih =>
    intro es hce m hm
    unfold collectEntries at hce
    match he : n.err with
    | some e => rw [he] at hce; exact absurd hce (by simp)
    | none =>
      rw [he] at hce
      match hb : hashFileAttr h n with
      | .err e => rw [hb] at hce; exact absurd hce (by simp)
      | .ok b =>
        rw [hb] at hce
        match hrest : collectEntries h p rest with
        | .err e => rw [hrest] at hce; exact absurd hce (by simp)
        | .ok hs =>
          rcases List.mem_cons.mp hm with rfl | hm'
          · exact ⟨he, by simp [hb, Res.isOk]⟩
          · exact ih hs hrest m hm'

theorem Res_isOk_ok {ε α : Type} (r : Res ε α) (h : r.isOk = true) : ∃ a, r = .ok a := by
  cases r with
  | ok a => exact ⟨a, rfl⟩
  | err e => exact absurd h (by simp [Res.isOk])

theorem dirCase_perm (h : HashImpl) (nD : Bool) (base path : GoStr) (mask : Mask)
    (subdir : Bool) (mode : Nat) (sys : Option SysP) (xattr : Option XattrM)
    {nodes nodes' : List Node} (hp : nodes.Perm nodes')
    (hok : (dirCase h nD base path mask subdir mode sys xattr nodes).err = none) :
    dirCase h nD base path mask subdir mode sys xattr nodes' =
      dirCase h nD base path mask subdir mode sys xattr nodes := by
  unfold dirCase at hok ⊢
  by_cases hnD : nD
  · rw [if_pos hnD] at hok
    exact absurd hok (by simp [errNode, bareNode])
  · rw [if_neg hnD] at hok
    rw [if_neg hnD, if_neg hnD]
    match hce : collectEntries h (mask.attr &&& AttrNoName ≠ 0) nodes with
    | .err (.child e) =>
      rw [hce] at hok
      by_cases hsd : subdir = true
      · simp [hsd, bareNode] at hok
      · simp [hsd, errNode, bareNode] at hok
    | .err (.meta e) =>
      rw [hce] at hok
      simp [errNode, bareNode] at hok
    | .ok entries =>
      have hall := collectEntries_all_ok h (decide (mask.attr &&& AttrNoName ≠ 0)) nodes entries hce
      have hall' : ∀ n ∈ nodes', n.err = none ∧ (hashFileAttr h n).isOk = true :=
        fun n hn => hall n (hp.mem_iff.mpr hn)
      have hok' := collectEntries_eq_of_all_ok h (decide (mask.attr &&& AttrNoName ≠ 0)) nodes' hall'
      simp only [hce, hok']
      have hentries : entries = nodes.map (entryVal h (decide (mask.attr &&& AttrNoName ≠ 0))) := by
        have := collectEntries_eq_of_all_ok h (decide (mask.attr &&& AttrNoName ≠ 0)) nodes hall
        rw [hce] at this
        exact (Res.ok.injEq _ _).mp this
      rw [@TreeASN1DER_perm h.code
        (nodes'.map (entryVal h (decide (mask.attr &&& AttrNoName ≠ 0))))
        entries
        (by rw [hentries]; exact (hp.symm.map _))]

theorem collectEntries_child_err_mem (h : HashImpl) (p : Bool) :
    ∀ (nodes : List Node) (e : GoErr),
      collectEntries h p nodes = .err (.child e) →
      ∃ n ∈ nodes, n.err = some e := by
  intro nodes
  induction nodes with
  | nil => intro e hce; exact absurd hce (by simp [collectEntries])
  | cons n rest ih =>
    intro e hce
    unfold collectEntries at hce
    match he : n.err with
    | some e' =>
      rw [he] at hce
      simp only [Res.err.injEq, CollectErr.child.injEq] at hce
      exact ⟨n, List.mem_cons_self n rest, by rw [he, hce]⟩
    | none =>
      rw [he] at hce
      match hb : hashFileAttr h n with
      | .err e' => rw [hb] at hce; exact absurd hce (by simp)
      | .ok b =>
        rw [hb] at hce
        match hrest : collectEntries h p rest with
        | .err e' =>
          rw [hrest] at hce
          simp only [Res.err.injEq] at hce
          subst hce
          obtain ⟨m, hm, hme⟩ := ih e hrest
          exact ⟨m, List.mem_cons_of_mem n hm, hme⟩
        | .ok hs => rw [hrest] at hce; exact absurd hce (by simp)

/-- C1: the digest of a directory does not depend on the order in which the
platform lists its children (equivalently, on the completion order of the
child walks): walking the same directory with a permuted child list yields
the identical result node whenever the walk succeeds. -/
theorem walkFile_dir_readdir_perm (h : HashImpl) (nD : Bool) (fuel : Nat)
    (path base : GoStr) (perm : Nat) (sys : Option SysP) (xa : Option (List NamedHash))
    (children children' : List (GoStr × FsTree)) (mask : Mask) (subdir : Bool)
    (hperm : children.Perm children')
    (hok : (walkFile h nD (fuel + 1) path base (.dir perm sys xa children) mask subdir).err
      = none) :
    walkFile h nD (fuel + 1) path base (.dir perm sys xa children') mask subdir =
      walkFile h nD (fuel + 1) path base (.dir perm sys xa children) mask subdir := by
  simp only [walkFile, xattrVal, FsTree.sysOf, FsTree.xattrOf, FsTree.goMode] at hok ⊢
  by_cases h1 : sys = none ∧ mask.attr &&& attrFive ≠ 0
  · rw [if_pos h1] at hok
    exact absurd hok (by simp [errNode, bareNode])
  · rw [if_neg h1] at hok
    rw [if_neg h1, if_neg h1]
    by_cases h2 : mask.attr &&& AttrX ≠ 0 ∧ xa = none
    · rw [if_pos h2] at hok
      exact absurd hok (by simp [errNode, bareNode])
    · rw [if_neg h2] at hok
      rw [if_neg h2, if_neg h2]
      exact dirCase_perm h nD base path mask subdir _ _ _
        (hperm.map fun c => walkFile h nD fuel (path ++ '/' :: c.1) c.1 c.2 mask true) hok

/-- Shared concrete hash for witnesses: code 4 (sha256), digest = the blob. -/
def idHash : HashImpl := ⟨4, id, id⟩

/-- Witness for C1: a directory with two children walked in both orders. -/
theorem walkFile_dir_readdir_perm_witness :
    walkFile idHash false 2 "d".data "d".data
      (.dir 0o755 none none
        [("b".data, .regular 0o644 none none [49]), ("a".data, .regular 0o644 none none [50])])
      ⟨0, 0⟩ false =
    walkFile idHash false 2 "d".data "d".data
      (.dir 0o755 none none
        [("a".data, .regular 0o644 none none [50]), ("b".data, .regular 0o644 none none [49])])
      ⟨0, 0⟩ false :=
  walkFile_dir_readdir_perm idHash false 1 "d".data "d".data 0o755 none none
    [("a".data, .regular 0o644 none none [50]), ("b".data, .regular 0o644 none none [49])]
    [("b".data, .regular 0o644 none none [49]), ("a".data, .regular 0o644 none none [50])]
    ⟨0, 0⟩ false
    (List.Perm.swap ("b".data, FsTree.regular 0o644 none none [49])
      ("a".data, FsTree.regular 0o644 none none [50]) [])
    (by decide)

/-! ### Attribute-bit preservation under the walker's mask mutations -/

theorem land_lor_right (a b c : Nat) : (a ||| b) &&& c = (a &&& c) ||| (b &&& c) := by
  apply Nat.eq_of_testBit_eq
  intro k
  simp only [Nat.testBit_land, Nat.testBit_lor]
  cases a.testBit k <;> cases b.testBit k <;> cases c.testBit k <;> rfl

theorem clearAttr_and (a flag m : Nat) (hm : (65535 ^^^ flag) &&& m = m) :
    clearAttr a flag &&& m = a &&& m := by
  unfold clearAttr
  rw [Nat.land_assoc, hm]

theorem setAttr_and (a flag m : Nat) (hf : flag &&& m = 0) :
    (a ||| flag) &&& m = a &&& m := by
  rw [land_lor_right, hf]
  simp

/-- C4: a failing child aborts the parent's digest: when the per-child loop
meets a child node carrying an error `e`, some child indeed failed with `e`,
and the parent returns a single error node — the bare child error below top
level, and the child error wrapped as `FileError` with empty action at top
level, which renders as `path: <error>`. -/
theorem walkFile_child_error (h : HashImpl) (fuel : Nat) (path base : GoStr)
    (perm : Nat) (sys : Option SysP) (xa : Option (List NamedHash))
    (children : List (GoStr × FsTree)) (mask : Mask) (subdir : Bool) (e : GoErr)
    (h1 : ¬(sys = none ∧ mask.attr &&& attrFive ≠ 0))
    (h2 : ¬(mask.attr &&& AttrX ≠ 0 ∧ xa = none))
    (hce : collectEntries h (mask.attr &&& AttrNoName ≠ 0)
        (children.map fun c => walkFile h false fuel (path ++ '/' :: c.1) c.1 c.2 mask true)
      = .err (.child e)) :
    (∃ n ∈ children.map fun c => walkFile h false fuel (path ++ '/' :: c.1) c.1 c.2 mask true,
        n.err = some e) ∧
    walkFile h false (fuel + 1) path base (.dir perm sys xa children) mask subdir =
      (if subdir then bareNode base path mask e
       else errNode base path mask [] subdir e) ∧
    (errNode base path mask [] false e).err = some (.fileErr [] path false e) ∧
    (GoErr.fileErr [] path false e).message = path ++ ": ".data ++ e.message := by
  refine ⟨collectEntries_child_err_mem h _ _ e hce, ?_, rfl, rfl⟩
  simp only [walkFile, xattrVal, FsTree.sysOf, FsTree.xattrOf, FsTree.goMode]
  rw [if_neg h1, if_neg h2]
  unfold dirCase
  rw [if_neg (by simp), hce]

/-- Witness for C4: one child whose stat data is unavailable while `u` is
requested; the parent at top level wraps the child error with its own path. -/
theorem walkFile_child_error_witness :
    (∃ n ∈ [("a".data, FsTree.regular 0o644 none none [50])].map
        (fun c => walkFile idHash false 1 ("d".data ++ '/' :: c.1) c.1 c.2 ⟨0, AttrUID⟩ true),
        n.err = some (.fileErr "stat".data "d/a".data true .noStat)) ∧
    walkFile idHash false 2 "d".data "d".data
      (.dir 0o755 (some ⟨0, 0, ⟨0, 0⟩, ⟨0, 0⟩, 0⟩) none
        [("a".data, FsTree.regular 0o644 none none [50])]) ⟨0, AttrUID⟩ false =
      (if false then bareNode "d".data "d".data ⟨0, AttrUID⟩
          (.fileErr "stat".data "d/a".data true .noStat)
       else errNode "d".data "d".data ⟨0, AttrUID⟩ [] false
          (.fileErr "stat".data "d/a".data true .noStat)) ∧
    (errNode "d".data "d".data ⟨0, AttrUID⟩ [] false
        (.fileErr "stat".data "d/a".data true .noStat)).err =
      some (.fileErr [] "d".data false (.fileErr "stat".data "d/a".data true .noStat)) ∧
    (GoErr.fileErr [] "d".data false
        (.fileErr "stat".data "d/a".data true .noStat)).message =
      "d".data ++ ": ".data ++ (GoErr.fileErr "stat".data "d/a".data true .noStat).message :=
  walkFile_child_error idHash 1 "d".data "d".data 0o755 (some ⟨0, 0, ⟨0, 0⟩, ⟨0, 0⟩, 0⟩) none
    [("a".data, FsTree.regular 0o644 none none [50])] ⟨0, AttrUID⟩ false
    (.fileErr "stat".data "d/a".data true .noStat)
    (by decide) (by decide) (by decide)

/-- `finishNode` cannot fail when the five stat attributes are satisfiable and
the xattr attribute is satisfiable. -/
theorem finishNode_err_none (h : HashImpl) (base path : GoStr) (mode : Nat)
    (sys : Option SysP) (xattr : Option XattrM) (subdir : Bool) (origAttr : Nat)
    (mask' : Mask) (sum : Bytes)
    (hfive : mask'.attr &&& attrFive = 0 ∨ sys ≠ none)
    (hX : mask'.attr &&& AttrX = 0 ∨ xattr ≠ none) :
    (finishNode h base path mode sys xattr subdir origAttr mask' sum).err = none := by
  unfold finishNode
  by_cases hc : origAttr &&& AttrInclusive ≠ 0 ∧ ¬subdir = true
  · rw [if_pos hc]
    have hb : ∃ b, hashFileAttr h ⟨base, path, mask', sum, mode, sys, xattr, none⟩ = .ok b := by
      unfold hashFileAttr
      rw [if_neg (by
        rintro ⟨hs, hf⟩
        rcases hfive with hfive | hfive
        · exact hf hfive
        · exact hfive hs)]
      rw [if_neg (by
        rintro ⟨hxn, hxf⟩
        rcases hX with hX | hX
        · exact hxf hX
        · exact hX hxn)]
      exact ⟨_, rfl⟩
    obtain ⟨b, hb⟩ := hb
    rw [hb]
  · rw [if_neg hc]

/-- C6: when `getSys` reports "stat data unavailable", the walk of any entry
is a hard `stat` error exactly when the mask requests uid, gid, device-id,
mtime or ctime; when none of those five are requested the walk of a regular
file proceeds and yields an error-free node. -/
theorem walkFile_stat_unavailable (h : HashImpl) (nD : Bool) (fuel : Nat)
    (path base : GoStr) (mask : Mask) (subdir : Bool) :
    (∀ t : FsTree, t.sysOf = none → mask.attr &&& attrFive ≠ 0 →
      walkFile h nD (fuel + 1) path base t mask subdir =
        errNode base path mask "stat".data subdir .noStat) ∧
    (∀ perm xa content, mask.attr &&& attrFive = 0 →
      ¬(mask.attr &&& AttrX ≠ 0 ∧ xa = none) →
      (walkFile h nD (fuel + 1) path base (.regular perm none xa content) mask subdir).err
        = none) := by
  constructor
  · intro t hs hf
    simp only [walkFile]
    rw [if_pos ⟨hs, hf⟩]
  · intro perm xa content h5 hx
    simp only [walkFile, xattrVal, FsTree.sysOf, FsTree.xattrOf, FsTree.goMode,
      FsTree.contentOf]
    rw [if_neg (by rintro ⟨_, hf⟩; exact hf h5)]
    rw [if_neg hx]
    simp only [defaultCase]
    have hX' : ∀ a1 : Nat, a1 &&& AttrX = mask.attr &&& AttrX →
        (a1 &&& AttrX = 0 ∨
          (if mask.attr &&& AttrX ≠ 0 then xa.map (fun l => (⟨h.code, l⟩ : XattrM)) else none)
            ≠ none) := by
      intro a1 ha1
      by_cases hxx : mask.attr &&& AttrX ≠ 0
      · right
        rw [if_pos hxx]
        match xa with
        | some l => simp
        | none => exact absurd ⟨hxx, rfl⟩ hx
      · left
        rw [ha1]
        omega
    split
    · apply finishNode_err_none
      · left
        rw [setAttr_and _ _ _ (by decide), clearAttr_and _ _ _ (by decide)]
        exact h5
      · exact hX' _ (by rw [setAttr_and _ _ _ (by decide), clearAttr_and _ _ _ (by decide)])
    · apply finishNode_err_none
      · left
        rw [clearAttr_and _ _ _ (by decide), clearAttr_and _ _ _ (by decide)]
        exact h5
      · exact hX' _ (by rw [clearAttr_and _ _ _ (by decide), clearAttr_and _ _ _ (by decide)])

/-- Witness for C6: a regular file with unavailable stat data errors when `u`
is requested and succeeds when only `i` is requested. -/
theorem walkFile_stat_unavailable_witness :
    (walkFile idHash false 1 "f".data "f".data (.regular 0o644 none none [1])
        ⟨0, AttrUID⟩ false =
      errNode "f".data "f".data ⟨0, AttrUID⟩ "stat".data false .noStat) ∧
    (walkFile idHash false 1 "f".data "f".data (.regular 0o644 none none [1])
        ⟨0, AttrInclusive⟩ false).err = none :=
  ⟨(walkFile_stat_unavailable idHash false 0 "f".data "f".data ⟨0, AttrUID⟩ false).1
      (.regular 0o644 none none [1]) (by decide) (by decide),
   (walkFile_stat_unavailable idHash false 0 "f".data "f".data ⟨0, AttrInclusive⟩ false).2
      0o644 none [1] (by decide) (by decide)⟩

/-- C5 counterexample: a fifo walked as a top-level input without `i` does
not fail at all — the walk returns an error-free node whose digest is the
hash of the fifo's readable bytes (there is no special-file error in the
current engine). -/
theorem walkFile_special_top_counterexample :
    (walkFile idHash false 1 "p".data "p".data
        (.special ModeNamedPipe 0o644 none none [9, 9]) ⟨0, 0⟩ false).err = none ∧
    (walkFile idHash false 1 "p".data "p".data
        (.special ModeNamedPipe 0o644 none none [9, 9]) ⟨0, 0⟩ false).sum = [9, 9] := by
  refine ⟨by decide, by decide⟩

/-- C5 amended: a special file (device, fifo, socket) walked as a top-level
input without the inclusive attribute is read like a regular file: the walk
succeeds, its digest is the hash of the entry's readable data, and the
no-data attribute is cleared on the result. -/
theorem walkFile_special_top (h : HashImpl) (nD : Bool) (fuel : Nat)
    (path base : GoStr) (tb perm : Nat) (sys : Option SysP)
    (xa : Option (List NamedHash)) (content : Bytes) (mask : Mask)
    (hincl : mask.attr &&& AttrInclusive = 0)
    (h1 : ¬(sys = none ∧ mask.attr &&& attrFive ≠ 0))
    (h2 : ¬(mask.attr &&& AttrX ≠ 0 ∧ xa = none)) :
    (walkFile h nD (fuel + 1) path base (.special tb perm sys xa content) mask false).err
      = none ∧
    (walkFile h nD (fuel + 1) path base (.special tb perm sys xa content) mask false).sum
      = h.file content ∧
    (walkFile h nD (fuel + 1) path base (.special tb perm sys xa content) mask false).mask
      = ⟨mask.mode, clearAttr (clearAttr mask.attr AttrNoName) AttrNoData⟩ := by
  simp only [walkFile, xattrVal, FsTree.sysOf, FsTree.xattrOf, FsTree.goMode,
    FsTree.contentOf]
  rw [if_neg h1, if_neg h2]
  simp only [defaultCase]
  rw [if_neg (by
    rintro (⟨_, hi | hs⟩ | ⟨_, hi | hs⟩) <;> first
      | exact (by rw [hincl] at hi; exact hi rfl : False)
      | exact Bool.false_ne_true hs)]
  unfold finishNode
  rw [if_neg (by rintro ⟨hi, _⟩; rw [hincl] at hi; exact hi rfl)]
  exact ⟨rfl, rfl, rfl⟩

/-! ### Injectivity of the mode field in the canonical File encoding -/

theorem beBytes_length (k n : Nat) : (beBytes k n).length = k := by
  induction k generalizing n with
  | zero => rfl
  | succ k ih => simp [beBytes, ih]

theorem fileModeField_length (m mk : Nat) : (fileModeField m mk).length = 18 := by
  simp [fileModeField, modeDER, asn1BitString32, asn1Seq, explicitTag, tlv, lenBytes,
    beBytes_length]

theorem fileRdevField_of_no_dev (m : Nat) (r : Option Nat)
    (hdev : m &&& (ModeDevice ||| ModeCharDevice) = 0) : fileRdevField m r = [] := by
  unfold fileRdevField
  match r with
  | none => rfl
  | some r' =>
    show (if m &&& (ModeDevice ||| ModeCharDevice) ≠ 0 then
        explicitTag 8 (asn1Int (Int.ofNat r')) else []) = []
    rw [if_neg (by omega)]

theorem tlv_inj_of_length (tag : Nat) {c1 c2 : Bytes} (hl : c1.length = c2.length)
    (he : tlv tag c1 = tlv tag c2) : c1 = c2 := by
  unfold tlv at he
  injection he with _ he2
  exact (List.append_inj he2 (by rw [hl])).2

theorem FileASN1DER_mode_inj (ht : Nat) (s : Bytes) (mk : Nat) (sys : EncSys)
    (m1 m2 : Nat)
    (hd1 : m1 &&& (ModeDevice ||| ModeCharDevice) = 0)
    (hd2 : m2 &&& (ModeDevice ||| ModeCharDevice) = 0)
    (hmk : mk < 2 ^ 32)
    (heq : FileASN1DER ht s m1 mk sys = FileASN1DER ht s m2 mk sys) :
    m1 &&& mk = m2 &&& mk := by
  unfold FileASN1DER at heq
  rw [fileRdevField_of_no_dev m1 sys.rdev hd1, fileRdevField_of_no_dev m2 sys.rdev hd2] at heq
  have hlen : (fileHashField ht s ++ fileModeField m1 mk ++ fileUIDField sys.uid ++
      fileGIDField sys.gid ++ fileMtimeField sys.mtime ++ fileCtimeField sys.ctime ++
      ([] : Bytes) ++ fileXattrField sys).length =
      (fileHashField ht s ++ fileModeField m2 mk ++ fileUIDField sys.uid ++
      fileGIDField sys.gid ++ fileMtimeField sys.mtime ++ fileCtimeField sys.ctime ++
      ([] : Bytes) ++ fileXattrField sys).length := by
    simp [List.length_append, fileModeField_length]
  have hc := tlv_inj_of_length 0x30 hlen heq
  have hc2 := List.append_cancel_right hc
  have hc3 := List.append_cancel_right hc2
  have hc4 := List.append_cancel_right hc3
  have hc5 := List.append_cancel_right hc4
  have hc6 := List.append_cancel_right hc5
  have hc7 := List.append_cancel_right hc6
  have hm := List.append_cancel_left hc7
  have hinner := tlv_inj_of_length (0xa0 + 1) (by simp [modeDER, asn1Seq, asn1BitString32,
    tlv, lenBytes, beBytes_length]) hm
  unfold modeDER at hinner
  have hinner2 := tlv_inj_of_length 0x30 (by simp [asn1BitString32, tlv, lenBytes,
    beBytes_length]) hinner
  have hbits := List.append_cancel_left hinner2
  have hcontent := tlv_inj_of_length 0x03 (by simp [beBytes_length]) hbits
  have hbytes : beBytes 4 (m1 &&& mk) = beBytes 4 (m2 &&& mk) := by
    injection hcontent
  have h1lt : m1 &&& mk < 2 ^ 32 := lt_of_le_of_lt Nat.and_le_right hmk
  have h2lt : m2 &&& mk < 2 ^ 32 := lt_of_le_of_lt Nat.and_le_right hmk
  simp only [beBytes, List.append_assoc, List.cons_append, List.nil_append,
    List.cons.injEq, and_true] at hbytes
  omega

theorem hashFileAttrMask_lt (mm : Nat) : hashFileAttrMask mm < 2 ^ 32 := by
  unfold hashFileAttrMask
  apply Nat.or_lt_two_pow
  · apply Nat.or_lt_two_pow
    · decide
    · exact lt_of_le_of_lt Nat.and_le_right (by decide)
  · apply Nat.or_lt_two_pow
    · apply Nat.or_lt_two_pow
      · split <;> decide
      · split <;> decide
    · split <;> decide

theorem lor_lor_and_self (x y z : Nat) : (x ||| y ||| z) &&& x = x := by
  apply Nat.eq_of_testBit_eq
  intro k
  simp only [Nat.testBit_land, Nat.testBit_lor]
  cases x.testBit k <;> cases y.testBit k <;> cases z.testBit k <;> rfl

/-- The type bits are always set in the `hashFileAttr` mode mask. -/
theorem hashFileAttrMask_type (mm : Nat) :
    hashFileAttrMask mm &&& ModeType = ModeType := by
  simp only [hashFileAttrMask]
  exact lor_lor_and_self ModeType _ _

theorem land_absorb_of_subset (x db mt : Nat) (hsub : db &&& mt = db)
    (hx : x &&& mt = 0) : x &&& db = 0 := by
  calc x &&& db = x &&& (db &&& mt) := by rw [hsub]
  _ = x &&& (mt &&& db) := by rw [Nat.land_comm db mt]
  _ = x &&& mt &&& db := by rw [Nat.land_assoc]
  _ = 0 &&& db := by rw [hx]
  _ = 0 := by simp

theorem symlink_no_dev (perm : Nat) (hperm : perm &&& ModeType = 0) :
    (ModeSymlink ||| perm) &&& (ModeDevice ||| ModeCharDevice) = 0 ∧
    perm &&& (ModeDevice ||| ModeCharDevice) = 0 := by
  have hp : perm &&& (ModeDevice ||| ModeCharDevice) = 0 :=
    land_absorb_of_subset perm (ModeDevice ||| ModeCharDevice) ModeType (by decide) hperm
  refine ⟨?_, hp⟩
  rw [land_lor_right, hp]
  have : ModeSymlink &&& (ModeDevice ||| ModeCharDevice) = 0 := by decide
  rw [this]
  decide

/-- C3: in every canonical `File` record, the mode mask always contains all
file-type bits, the encoded `mode.mode` is the resolved mode AND-ed with
that mask, and consequently a symlink whose target bytes equal a regular
file's contents (hence equal raw digests) gets a different
metadata-inclusive digest than the regular file, for any user mask and any
injective metadata hash. -/
theorem hashFileAttr_type_bits (h : HashImpl) (hinj : Function.Injective h.metadata)
    (base path : GoStr) (mm a : Nat) (sum : Bytes) (sys : Option SysP)
    (xattr : Option XattrM) (perm : Nat)
    (hperm : perm &&& ModeType = 0)
    (hfive : sys ≠ none ∨ a &&& attrFive = 0)
    (hX : xattr ≠ none ∨ a &&& AttrX = 0) :
    hashFileAttrMask mm &&& ModeType = ModeType ∧
    (∀ mode : Nat, fileModeField mode (hashFileAttrMask mm) =
      explicitTag 1 (modeDER (hashFileAttrMask mm) (mode &&& hashFileAttrMask mm))) ∧
    hashFileAttr h ⟨base, path, ⟨mm, a⟩, sum, ModeSymlink ||| perm, sys, xattr, none⟩ ≠
      hashFileAttr h ⟨base, path, ⟨mm, a⟩, sum, perm, sys, xattr, none⟩ := by
  refine ⟨hashFileAttrMask_type mm, fun _ => rfl, ?_⟩
  have hd := symlink_no_dev perm hperm
  have hmodes : (ModeSymlink ||| perm) &&& hashFileAttrMask mm ≠
      perm &&& hashFileAttrMask mm := by
    intro hEq
    have h27 := congrArg (fun x => x.testBit 27) hEq
    simp only [Nat.testBit_land] at h27
    have hmk27 : (hashFileAttrMask mm).testBit 27 = true := by
      have := congrArg (fun x => x.testBit 27) (hashFileAttrMask_type mm)
      simp only [Nat.testBit_land] at this
      have hmt : ModeType.testBit 27 = true := by decide
      rw [hmt] at this
      simpa using this
    have hs27 : (ModeSymlink ||| perm).testBit 27 = true := by
      rw [Nat.testBit_lor]
      have : ModeSymlink.testBit 27 = true := by decide
      rw [this]
      rfl
    have hp27 : perm.testBit 27 = false := by
      have := congrArg (fun x => x.testBit 27) hperm
      simp only [Nat.testBit_land] at this
      have hmt : ModeType.testBit 27 = true := by decide
      rw [hmt] at this
      simpa using this
    rw [hs27, hp27, hmk27] at h27
    simp at h27
  have hcondFive : ∀ m : Nat, ¬((sys : Option SysP) = none ∧
      (Mask.mk mm a).attr &&& attrFive ≠ 0) := by
    intro m
    rintro ⟨hs, hf⟩
    rcases hfive with hfive | hfive
    · exact hfive hs
    · exact hf hfive
  have hcondX : ¬((xattr : Option XattrM) = none ∧ (Mask.mk mm a).attr &&& AttrX ≠ 0) := by
    rintro ⟨hxn, hxf⟩
    rcases hX with hX | hX
    · exact hX hxn
    · exact hxf hX
  unfold hashFileAttr
  rw [if_neg (hcondFive 0), if_neg (hcondFive 1), if_neg hcondX, if_neg hcondX]
  intro hEq
  simp only [Res.ok.injEq] at hEq
  have hder := hinj hEq
  exact hmodes (FileASN1DER_mode_inj _ _ _ _ _ _ hd.1 hd.2 (hashFileAttrMask_lt mm) hder)

/-- Witness for C3 with the identity metadata hash, contents "x", mode 0644. -/
theorem hashFileAttr_type_bits_witness :
    hashFileAttrMask 0 &&& ModeType = ModeType ∧
    (∀ mode : Nat, fileModeField mode (hashFileAttrMask 0) =
      explicitTag 1 (modeDER (hashFileAttrMask 0) (mode &&& hashFileAttrMask 0))) ∧
    hashFileAttr idHash ⟨"s".data, "s".data, ⟨0, 0⟩, [120], ModeSymlink ||| 0o644,
        none, none, none⟩ ≠
      hashFileAttr idHash ⟨"s".data, "s".data, ⟨0, 0⟩, [120], 0o644, none, none, none⟩ :=
  hashFileAttr_type_bits idHash (fun _ _ hh => hh) "s".data "s".data 0 0 [120]
    none none 0o644 (by decide) (Or.inr (by decide)) (Or.inr (by decide))

/-- The canonical File encoding ignores the supplied rdev value whenever the
mode carries no device type bit. -/
theorem FileASN1DER_rdev_irrel (ht : Nat) (s : Bytes) (m mk : Nat) (sys : EncSys)
    (r : Option Nat) (hdev : m &&& (ModeDevice ||| ModeCharDevice) = 0) :
    FileASN1DER ht s m mk { sys with rdev := r } = FileASN1DER ht s m mk sys := by
  unfold FileASN1DER
  rw [fileRdevField_of_no_dev m _ hdev, fileRdevField_of_no_dev m _ hdev]
  rfl

/-- C10: the `rdev` field is encoded only for entries whose mode has a
device or char-device type bit: for any other entry the field is absent
from the DER even when the platform supplies an rdev value and the mask
selects the device-id attribute, and the metadata digest is unchanged by
any supplied rdev value. -/
theorem hashFileAttr_rdev_absent (h : HashImpl) (base path : GoStr) (mk : Mask)
    (sm : Bytes) (md : Nat) (s : SysP) (xt : Option XattrM)
    (hdev : md &&& (ModeDevice ||| ModeCharDevice) = 0) :
    (∀ r : Option Nat, fileRdevField md r = []) ∧
    (∀ r' : Nat,
      hashFileAttr h ⟨base, path, mk, sm, md, some { s with rdev := r' }, xt, none⟩ =
        hashFileAttr h ⟨base, path, mk, sm, md, some s, xt, none⟩) := by
  constructor
  · intro r
    exact fileRdevField_of_no_dev md r hdev
  · intro r'
    by_cases hx2 : (xt : Option XattrM) = none ∧ mk.attr &&& AttrX ≠ 0
    · rw [hashFileAttr_noXattrErr h _ (by rintro ⟨hs, _⟩; exact absurd hs (by simp)) hx2,
        hashFileAttr_noXattrErr h _ (by rintro ⟨hs, _⟩; exact absurd hs (by simp)) hx2]
    · rw [hashFileAttr_ok h _ (by rintro ⟨hs, _⟩; exact absurd hs (by simp)) hx2,
        hashFileAttr_ok h _ (by rintro ⟨hs, _⟩; exact absurd hs (by simp)) hx2]
      exact congrArg (fun d => Res.ok (h.metadata d))
        (FileASN1DER_rdev_irrel _ _ _ _
          (encSysOf ⟨base, path, mk, sm, md, some s, xt, none⟩)
          (if mk.attr &&& AttrSpecial ≠ 0 then some r' else none) hdev)

/-- Witness for C10 at a fifo whose mask selects the device-id attribute. -/
theorem hashFileAttr_rdev_absent_witness :
    (∀ r : Option Nat, fileRdevField (ModeNamedPipe ||| 0o644) r = []) ∧
    (∀ r' : Nat,
      hashFileAttr idHash ⟨"p".data, "p".data, ⟨0, AttrSpecial⟩, [1],
          ModeNamedPipe ||| 0o644,
          some { uid := 0, gid := 0, mtime := ⟨0, 0⟩, ctime := ⟨0, 0⟩, rdev := r' },
          none, none⟩ =
        hashFileAttr idHash ⟨"p".data, "p".data, ⟨0, AttrSpecial⟩, [1],
          ModeNamedPipe ||| 0o644,
          some { uid := 0, gid := 0, mtime := ⟨0, 0⟩, ctime := ⟨0, 0⟩, rdev := 0 },
          none, none⟩) :=
  hashFileAttr_rdev_absent idHash "p".data "p".data ⟨0, AttrSpecial⟩ [1]
    (ModeNamedPipe ||| 0o644) ⟨0, 0, ⟨0, 0⟩, ⟨0, 0⟩, 0⟩ none (by decide)

/-! ## Ordered result queue (queue.go)

`nodeQueue` is a FIFO of per-input one-shot slots.  The sequential model
records the pending slots in enqueue order plus the closed flag; `dequeue`
on an empty open queue blocks (outcome `none`), and on an empty closed
queue returns the terminal nil sentinel. -/

structure NodeQueue (α : Type) where
  pending : List α
  closed : Bool
  deriving DecidableEq, Repr

def newNodeQueue {α : Type} : NodeQueue α := ⟨[], false⟩

/-- `enqueue`: append a slot. -/
def nqEnqueue {α : Type} (q : NodeQueue α) (x : α) : NodeQueue α :=
  ⟨q.pending ++ [x], q.closed⟩

/-- `close`: no further slots; drained dequeues return the sentinel. -/
def nqClose {α : Type} (q : NodeQueue α) : NodeQueue α :=
  ⟨q.pending, true⟩

/-- `dequeue`: `some (some x, q')` delivers the head slot, `some (none, q')`
is the terminal nil sentinel, and `none` models blocking. -/
def nqDequeue {α : Type} (q : NodeQueue α) : Option (Option α × NodeQueue α) :=
  match q.pending with
  | x :: rest => some (some x, ⟨rest, q.closed⟩)
  | [] => if q.closed then some (none, q) else none

def nqEnqueueAll {α : Type} (q : NodeQueue α) (l : List α) : NodeQueue α :=
  l.foldl nqEnqueue q

/-- The values delivered by `k` successive dequeues. -/
def nqDrain {α : Type} : Nat → NodeQueue α → List (Option α)
  | 0, _ => []
  | k + 1, q =>
    match nqDequeue q with
    | some (v, q') => v :: nqDrain k q'
    | none => []

theorem nqEnqueueAll_eq {α : Type} :
    ∀ (l : List α) (p : List α) (c : Bool),
      nqEnqueueAll ⟨p, c⟩ l = ⟨p ++ l, c⟩ := by
  intro l
  induction l with
  | nil => intro p c; simp [nqEnqueueAll]
  | cons x rest ih =>
    intro p c
    show nqEnqueueAll (nqEnqueue ⟨p, c⟩ x) rest = _
    rw [show nqEnqueue (⟨p, c⟩ : NodeQueue α) x = ⟨p ++ [x], c⟩ from rfl, ih]
    simp

theorem nqDrain_closed_empty {α : Type} :
    ∀ k : Nat, nqDrain k (⟨[], true⟩ : NodeQueue α) = List.replicate k none := by
  intro k
  induction k with
  | zero => rfl
  | succ k ih => simp [nqDrain, nqDequeue, ih, List.replicate_succ]

theorem nqDrain_pending {α : Type} :
    ∀ (p : List α) (k : Nat),
      nqDrain (p.length + k) (⟨p, true⟩ : NodeQueue α) =
        p.map some ++ List.replicate k none := by
  intro p
  induction p with
  | nil => intro k; simpa using nqDrain_closed_empty k
  | cons x rest ih =>
    intro k
    show nqDrain (rest.length + 1 + k) _ = _
    rw [show rest.length + 1 + k = (rest.length + k) + 1 by omega]
    simp only [nqDrain, nqDequeue]
    rw [ih k]
    simp

/-- C7: enqueue any sequence of slots, close, and dequeue repeatedly: the
deliveries are exactly the enqueued slots, each once, in enqueue order,
followed by the nil sentinel on every further dequeue. -/
theorem nodeQueue_fifo {α : Type} (l : List α) (k : Nat) :
    nqDrain (l.length + k) (nqClose (nqEnqueueAll newNodeQueue l)) =
      l.map some ++ List.replicate k none := by
  rw [show (newNodeQueue : NodeQueue α) = ⟨[], false⟩ from rfl, nqEnqueueAll_eq]
  rw [show nqClose (⟨[] ++ l, false⟩ : NodeQueue α) = ⟨l, true⟩ by simp [nqClose]]
  exact nqDrain_pending l k

/-- Witness for C5's amended statement at a concrete socket entry. -/
theorem walkFile_special_top_witness :
    (walkFile idHash false 1 "s".data "s".data
        (.special ModeSocket 0o600 none none [7]) ⟨0, AttrNoName⟩ false).err = none ∧
    (walkFile idHash false 1 "s".data "s".data
        (.special ModeSocket 0o600 none none [7]) ⟨0, AttrNoName⟩ false).sum = idHash.file [7] ∧
    (walkFile idHash false 1 "s".data "s".data
        (.special ModeSocket 0o600 none none [7]) ⟨0, AttrNoName⟩ false).mask
      = ⟨0, clearAttr (clearAttr AttrNoName AttrNoName) AttrNoData⟩ :=
  walkFile_special_top idHash false 0 "s".data "s".data ModeSocket 0o600 none none [7]
    ⟨0, AttrNoName⟩ (by decide) (by decide) (by decide)

end Xsum
